import Mathlib

/-!
Verification development for the PDF region-extraction editor.

The definitions below are a shallow embedding of the Python sources:

* `src/core/coordinate_utils.py` — `normalize_rect`, `CoordinateTransformer`
* `src/utils/validators.py`      — `validate_label`, `DuplicateValidator`
* `src/core/region_manager.py`   — `RegionData`, `RegionManager` and its
  operations (`add_region`, `update_region_label`, `update_region_coords`,
  `remove_region`, `move_region`, `select_region`, `clear_selection`,
  `clear_all_regions`, `save_to_file`, `load_from_file`)
* `src/tools/resize_tools.py`    — `ResizeTool` press/drag state machine
* `src/main.py`                  — mouse-press mode dispatch

Modelling conventions:

* Python floats are modelled as exact rationals (`ℚ`).
* A Python `dict` is an insertion-ordered association list with unique keys;
  `dictInsert` updates in place when the key is present and appends otherwise,
  exactly like `d[k] = v`.
* A Python `set` is a list manipulated only through membership-checking
  insert/erase, mirroring `set.add` / `set.remove`.
* Operations that can raise an uncaught exception in Python (e.g.
  `list.index` / `list.remove` on a missing element, unpacking `None`,
  dividing by zero) return `Option`/a dedicated constructor, with `none`
  standing for "raises".
* File persistence is modelled on the parsed JSON data: `LoadInput.missing`
  stands for `FileNotFoundError`, `LoadInput.malformed` for a JSON parse
  error, and an entry value of `none` in `FileData.regionsData` stands for a
  region record whose `"coords"` access raises.
-/

/-! ## `core/coordinate_utils.py` -/

/-- Embeds `normalize_rect` from `core/coordinate_utils.py`. -/
def normalize_rect (x0 y0 x1 y1 : ℚ) : ℚ × ℚ × ℚ × ℚ :=
  (min x0 x1, min y0 y1, max x0 x1, max y0 y1)

/-- The transform parameters held by `CoordinateTransformer`. -/
structure CoordinateTransformer where
  zoom : ℚ
  scale : ℚ
  offset_x : ℚ
  offset_y : ℚ
deriving Repr, DecidableEq

namespace CoordinateTransformer

/-- Embeds `CoordinateTransformer.pdf_to_image_coords`. -/
def pdf_to_image_coords (t : CoordinateTransformer) (pdf_x pdf_y : ℚ) : ℚ × ℚ :=
  (pdf_x * (t.zoom * t.scale), pdf_y * (t.zoom * t.scale))

/-- Embeds `CoordinateTransformer.image_to_pdf_coords`: guards the degenerate
transform and returns the origin instead of dividing. -/
def image_to_pdf_coords (t : CoordinateTransformer) (img_x img_y : ℚ) : ℚ × ℚ :=
  if t.zoom * t.scale = 0 then (0, 0)
  else (img_x / (t.zoom * t.scale), img_y / (t.zoom * t.scale))

/-- Embeds `CoordinateTransformer.canvas_to_image_coords`. -/
def canvas_to_image_coords (t : CoordinateTransformer) (canvas_x canvas_y : ℚ) : ℚ × ℚ :=
  (canvas_x - t.offset_x, canvas_y - t.offset_y)

/-- Embeds `CoordinateTransformer.image_to_canvas_coords`. -/
def image_to_canvas_coords (t : CoordinateTransformer) (img_x img_y : ℚ) : ℚ × ℚ :=
  (img_x + t.offset_x, img_y + t.offset_y)

/-- Embeds `CoordinateTransformer.canvas_to_pdf_coords` (composition through image
space, as in the source). -/
def canvas_to_pdf_coords (t : CoordinateTransformer) (canvas_x canvas_y : ℚ) : ℚ × ℚ :=
  let i := t.canvas_to_image_coords canvas_x canvas_y
  t.image_to_pdf_coords i.1 i.2

/-- Embeds `CoordinateTransformer.pdf_to_canvas_coords`. -/
def pdf_to_canvas_coords (t : CoordinateTransformer) (pdf_x pdf_y : ℚ) : ℚ × ℚ :=
  let i := t.pdf_to_image_coords pdf_x pdf_y
  t.image_to_canvas_coords i.1 i.2

/-- Embeds `CoordinateTransformer.canvas_to_pdf_delta`: `dx / self.scale` with no
zero guard — in Python a `scale` of zero makes this raise
`ZeroDivisionError`, modelled here by `none`. -/
def canvas_to_pdf_delta (t : CoordinateTransformer) (dx dy : ℚ) : Option (ℚ × ℚ) :=
  if t.scale = 0 then none
  else some (dx / t.scale, dy / t.scale)

end CoordinateTransformer

/-! ## `utils/validators.py` -/

/-- The whitespace characters stripped by Python's `str.strip()` (ASCII
subset; the claims involve no exotic whitespace). -/
def pyIsSpace (c : Char) : Bool :=
  c = ' ' || c = '\t' || c = '\n' || c = '\r' || c = Char.ofNat 11 || c = Char.ofNat 12

/-- Embeds `not label.strip()` for a string: true iff every character is
whitespace (in particular true for the empty string). -/
def stripIsEmpty (s : String) : Bool :=
  s.toList.all pyIsSpace

/-- Embeds `validate_label` from `utils/validators.py`.  The last test mirrors
Python's `if existing_labels and label in existing_labels`: an empty set is
falsy, so the duplicate check is skipped when there are no existing
labels. -/
def validate_label (label : String) (existing : List String) : Bool × String :=
  if label = "" then (false, "Label cannot be empty")
  else if stripIsEmpty label then (false, "Label cannot be only whitespace")
  else if label.length > 100 then (false, "Label too long (max 100 characters)")
  else if !existing.isEmpty && existing.contains label then (false, "Label already exists")
  else (true, "")

/-- Embeds `ERROR_DUPLICATE_LABEL` from `config/settings.py`. -/
def ERROR_DUPLICATE_LABEL : String := "This label already exists"

/-- Embeds `RESIZE_CORNERS` from `config/settings.py`. -/
def RESIZE_CORNERS : List String :=
  ["top-left", "top-right", "bottom-left", "bottom-right"]

/-- Embeds `RESIZE_CORNER_THRESHOLD` from `config/settings.py`. -/
def RESIZE_CORNER_THRESHOLD : ℚ := 20

/-- The label half of `DuplicateValidator` (the file-path half is not
touched by any claim). -/
structure DuplicateValidator where
  region_labels : List String
deriving Repr, DecidableEq

namespace DuplicateValidator

/-- Embeds `DuplicateValidator.add_label`. -/
def add_label (v : DuplicateValidator) (label : String) : Bool × DuplicateValidator :=
  if label ∈ v.region_labels then (false, v)
  else (true, ⟨v.region_labels ++ [label]⟩)

/-- Embeds `DuplicateValidator.remove_label`. -/
def remove_label (v : DuplicateValidator) (label : String) : Bool × DuplicateValidator :=
  if label ∈ v.region_labels then (true, ⟨v.region_labels.erase label⟩)
  else (false, v)

/-- Embeds `DuplicateValidator.update_label`: fails iff the new label collides with
a different existing label; otherwise removes the old and inserts the new. -/
def update_label (v : DuplicateValidator) (old_label new_label : String) :
    Bool × DuplicateValidator :=
  if new_label ∈ v.region_labels ∧ new_label ≠ old_label then (false, v)
  else
    let l1 := if old_label ∈ v.region_labels then v.region_labels.erase old_label
              else v.region_labels
    (true, ⟨if new_label ∈ l1 then l1 else l1 ++ [new_label]⟩)

/-- Embeds `DuplicateValidator.clear_labels`. -/
def clear_labels (_v : DuplicateValidator) : DuplicateValidator := ⟨[]⟩

end DuplicateValidator

/-! ## Python `dict` as an insertion-ordered association list -/

/-- Lookup in an insertion-ordered dictionary. -/
def dictLookup {α : Type} (d : List (String × α)) (k : String) : Option α :=
  match d with
  | [] => none
  | (k', v) :: rest => if k' = k then some v else dictLookup rest k

/-- Embeds `d[k] = v`: update in place when the key exists, append otherwise. -/
def dictInsert {α : Type} (d : List (String × α)) (k : String) (v : α) :
    List (String × α) :=
  match d with
  | [] => [(k, v)]
  | (k', v') :: rest =>
    if k' = k then (k, v) :: rest else (k', v') :: dictInsert rest k v

/-- Embeds `d.pop(k)` / `del d[k]` restricted to the entry removal (keys are unique
in every state we build, so removing the first match is exact). -/
def dictPop {α : Type} (d : List (String × α)) (k : String) : List (String × α) :=
  match d with
  | [] => []
  | (k', v') :: rest =>
    if k' = k then rest else (k', v') :: dictPop rest k

/-- Embeds `d.keys()` in insertion order. -/
def dictKeys {α : Type} (d : List (String × α)) : List String :=
  d.map Prod.fst

/-! ## `core/region_manager.py` -/

/-- Embeds `RegionData`: the PDF-space coordinates of a region.  The `rect_id`
visual handle is canvas-only state and is never persisted, so it is not
modelled. -/
structure RegionData where
  coords : ℚ × ℚ × ℚ × ℚ
deriving Repr, DecidableEq

/-- The store owned by `RegionManager`: the insertion-ordered `regions`
dictionary, the `region_order` list, the label validator and the current
selection. -/
structure RegionManager where
  regions : List (String × RegionData)
  region_order : List String
  validator : DuplicateValidator
  selected_region : Option String
deriving Repr, DecidableEq

namespace RegionManager

/-- The store of a freshly constructed `RegionManager`. -/
def initial : RegionManager :=
  { regions := [], region_order := [], validator := ⟨[]⟩, selected_region := none }

/-- Embeds `RegionManager.add_region` (the `canvas=None` path: drawing is a Surface
effect with no bearing on the store). -/
def add_region (m : RegionManager) (label : String) (x0 y0 x1 y1 : ℚ) :
    (Bool × String) × RegionManager :=
  let v := validate_label label m.validator.region_labels
  if !v.1 then ((false, v.2), m)
  else
    let c := normalize_rect x0 y0 x1 y1
    let a := m.validator.add_label label
    if !a.1 then ((false, ERROR_DUPLICATE_LABEL), m)
    else
      ((true, ""),
        { m with
          validator := a.2
          regions := dictInsert m.regions label ⟨c⟩
          region_order := m.region_order ++ [label] })

/-- Embeds `RegionManager.update_region_label`.  The `none` result models the
uncaught `ValueError` Python raises at `self.region_order.index(old_label)`
when the old label is missing from the order list (impossible in any
reachable state). -/
def update_region_label (m : RegionManager) (old_label new_label : String) :
    Option ((Bool × String) × RegionManager) :=
  match dictLookup m.regions old_label with
  | none => some ((false, "Region not found"), m)
  | some data =>
    let v := validate_label new_label (m.validator.region_labels.filter (· ≠ old_label))
    if !v.1 then some ((false, v.2), m)
    else
      let u := m.validator.update_label old_label new_label
      if !u.1 then some ((false, ERROR_DUPLICATE_LABEL), m)
      else
        match m.region_order.indexOf? old_label with
        | none => none
        | some idx =>
          some ((true, ""),
            { regions := dictInsert (dictPop m.regions old_label) new_label data
              region_order := m.region_order.set idx new_label
              validator := u.2
              selected_region :=
                if m.selected_region = some old_label then some new_label
                else m.selected_region })

/-- Embeds `RegionManager.update_region_coords`. -/
def update_region_coords (m : RegionManager) (label : String) (x0 y0 x1 y1 : ℚ) :
    Bool × RegionManager :=
  match dictLookup m.regions label with
  | none => (false, m)
  | some _ =>
    let c := normalize_rect x0 y0 x1 y1
    (true, { m with regions := dictInsert m.regions label ⟨c⟩ })

/-- Embeds `RegionManager.remove_region`.  The `none` result models the uncaught
`ValueError` from `self.region_order.remove(label)` when the label is in the
dictionary but not in the order list (impossible in any reachable state). -/
def remove_region (m : RegionManager) (label : String) :
    Option (Bool × RegionManager) :=
  match dictLookup m.regions label with
  | none => some (false, m)
  | some _ =>
    if label ∈ m.region_order then
      some (true,
        { regions := dictPop m.regions label
          region_order := m.region_order.erase label
          validator := (m.validator.remove_label label).2
          selected_region :=
            if m.selected_region = some label then none else m.selected_region })
    else none

/-- Embeds `RegionManager.move_region`: Python `int` indices, rejected unless both
lie in `[0, len(region_order))`. -/
def move_region (m : RegionManager) (from_index to_index : Int) :
    Bool × RegionManager :=
  let n : Int := m.region_order.length
  if 0 ≤ from_index ∧ from_index < n ∧ 0 ≤ to_index ∧ to_index < n then
    let label := m.region_order.getD from_index.toNat ""
    (true,
      { m with
        region_order :=
          (m.region_order.eraseIdx from_index.toNat).insertIdx to_index.toNat label })
  else (false, m)

/-- Embeds `RegionManager.select_region` (store effect only; colouring is a Surface
effect). -/
def select_region (m : RegionManager) (label : String) : Bool × RegionManager :=
  match dictLookup m.regions label with
  | none => (false, m)
  | some _ => (true, { m with selected_region := some label })

/-- Embeds `RegionManager.clear_selection`. -/
def clear_selection (m : RegionManager) : RegionManager :=
  { m with selected_region := none }

/-- Embeds `RegionManager.clear_all_regions`. -/
def clear_all_regions (_m : RegionManager) : RegionManager := initial

end RegionManager

/-- The keys of the `regions` dictionary. -/
def regionKeys (m : RegionManager) : List String :=
  dictKeys m.regions

/-! ## Persistence (`save_to_file` / `load_from_file`)

The JSON file is modelled by its parsed content.  An entry value of `none`
stands for a region record whose `"coords"` access raises (malformed entry);
a coordinate list of length other than four stands for a record whose
unpacking in `normalize_rect(*coords)` raises. -/

/-- Parsed content of a persisted regions file:
`{"regions": {label: {"coords": [...]}}, "order": [label, ...]}` with the
`data.get` defaults already applied. -/
structure FileData where
  regionsData : List (String × Option (List ℚ))
  order : List String
deriving Repr, DecidableEq

/-- The three ways opening and parsing the file can go: missing file
(`FileNotFoundError`), malformed JSON (parse error), or parsed data. -/
inductive LoadInput where
  | missing
  | malformed
  | parsed (fd : FileData)
deriving Repr, DecidableEq

/-- Outcome of the per-label loading loop in `load_from_file`: either the
loop finished with a count, or an exception aborted it leaving the store in
the state reached so far (caught by the surrounding `except`). -/
inductive LoadOutcome where
  | ok (count : Nat) (m : RegionManager)
  | err (m : RegionManager)
deriving Repr, DecidableEq

namespace RegionManager

/-- Embeds `RegionManager.save_to_file`: the serialized data (the file-system write
itself is outside the model). -/
def save_to_file (m : RegionManager) : FileData :=
  { regionsData :=
      m.regions.map (fun p =>
        (p.1, some [p.2.coords.1, p.2.coords.2.1, p.2.coords.2.2.1, p.2.coords.2.2.2]))
    order := m.region_order }

/-- The `for label in order:` loop of `load_from_file`.  A label absent from
`regions_data` is skipped; a `none` record aborts the loop (the `"coords"`
access raises); a record of arity other than four behaves like the Python
call `add_region(label, coords)`: `validate_label` runs first and a failure
there returns normally, otherwise `normalize_rect(*coords)` raises. -/
def load_regions (rd : List (String × Option (List ℚ))) :
    List String → RegionManager → Nat → LoadOutcome
  | [], m, count => .ok count m
  | label :: rest, m, count =>
    match dictLookup rd label with
    | none => load_regions rd rest m count
    | some none => .err m
    | some (some coords) =>
      match coords with
      | [a, b, c, d] =>
        let r := m.add_region label a b c d
        load_regions rd rest r.2 (count + if r.1.1 then 1 else 0)
      | _ =>
        if (validate_label label m.validator.region_labels).1 then .err m
        else load_regions rd rest m count

/-- Embeds `RegionManager.load_from_file`.  The exception messages produced by
`str(e)` vary with the Python runtime; the model keeps the fixed prefixes
from the source and a representative reason. -/
def load_from_file (m : RegionManager) (input : LoadInput) (filename : String) :
    (Bool × String) × RegionManager :=
  match input with
  | .missing => ((false, "File " ++ filename ++ " not found"), m)
  | .malformed => ((false, "Failed to load: malformed JSON"), m)
  | .parsed fd =>
    let m1 := m.clear_all_regions
    match load_regions fd.regionsData fd.order m1 0 with
    | .ok count m2 =>
      ((true, "Loaded " ++ toString count ++ " regions from " ++ filename), m2)
    | .err m2 => ((false, "Failed to load: bad region entry"), m2)

end RegionManager

/-! ## `tools/resize_tools.py` -/

/-- Python truthiness of an `Optional[str]` field: `None` and `""` are
falsy. -/
def pyFalsyStr : Option String → Bool
  | none => true
  | some s => s = ""

/-- The mutable interaction state of `ResizeTool` (visual members
excluded). -/
structure ResizeToolState where
  is_resizing : Bool
  resize_region : Option String
  resize_corner : Option String
  start_coords : Option (ℚ × ℚ)
  original_coords : Option (ℚ × ℚ × ℚ × ℚ)
  is_moving : Bool
  move_region : Option String
  move_start_coords : Option (ℚ × ℚ)
  original_coords_move : Option (ℚ × ℚ × ℚ × ℚ)
  original_coords_move_pdf : Option (ℚ × ℚ × ℚ × ℚ)
  original_coords_move_canvas : Option ((ℚ × ℚ) × (ℚ × ℚ))
deriving Repr, DecidableEq

/-- The state `ResizeTool.__init__` establishes. -/
def ResizeToolState.idle : ResizeToolState :=
  { is_resizing := false, resize_region := none, resize_corner := none
    start_coords := none, original_coords := none
    is_moving := false, move_region := none, move_start_coords := none
    original_coords_move := none, original_coords_move_pdf := none
    original_coords_move_canvas := none }

namespace ResizeTool

/-- Embeds `ResizeTool.check_corner_proximity`: the four corners are tested in the
order top-left, top-right, bottom-left, bottom-right (Python dict literal
iteration order) against the fixed pixel threshold. -/
def check_corner_proximity (t : CoordinateTransformer) (m : RegionManager)
    (canvas_x canvas_y : ℚ) (region_label : String) : Option String :=
  match dictLookup m.regions region_label with
  | none => none
  | some data =>
    let c0 := t.pdf_to_canvas_coords data.coords.1 data.coords.2.1
    let c1 := t.pdf_to_canvas_coords data.coords.2.2.1 data.coords.2.2.2
    let corners : List (String × ℚ × ℚ) :=
      [("top-left", c0.1, c0.2), ("top-right", c1.1, c0.2),
       ("bottom-left", c0.1, c1.2), ("bottom-right", c1.1, c1.2)]
    (corners.find? (fun c =>
      |canvas_x - c.2.1| ≤ RESIZE_CORNER_THRESHOLD ∧
      |canvas_y - c.2.2| ≤ RESIZE_CORNER_THRESHOLD)).map Prod.fst

/-- Embeds `ResizeTool.start_resize` (visual feedback omitted). -/
def start_resize (m : RegionManager) (st : ResizeToolState)
    (region_label corner : String) (canvas_x canvas_y : ℚ) :
    Bool × ResizeToolState :=
  match dictLookup m.regions region_label with
  | none => (false, st)
  | some data =>
    if corner ∉ RESIZE_CORNERS then (false, st)
    else
      (true,
        { st with
          is_resizing := true
          resize_region := some region_label
          resize_corner := some corner
          start_coords := some (canvas_x, canvas_y)
          original_coords := some data.coords })

/-- Embeds `ResizeTool.start_move` (visual feedback and cursor omitted). -/
def start_move (t : CoordinateTransformer) (m : RegionManager)
    (st : ResizeToolState) (region_label : String) (canvas_x canvas_y : ℚ) :
    Bool × ResizeToolState :=
  match dictLookup m.regions region_label with
  | none => (false, st)
  | some data =>
    (true,
      { st with
        is_moving := true
        move_region := some region_label
        move_start_coords := some (canvas_x, canvas_y)
        original_coords_move := some data.coords
        original_coords_move_pdf := some data.coords
        original_coords_move_canvas :=
          some (t.pdf_to_canvas_coords data.coords.1 data.coords.2.1,
                t.pdf_to_canvas_coords data.coords.2.2.1 data.coords.2.2.2) })

/-- The first `for label, region in regions.items():` loop of
`handle_mouse_press`: the first region with a corner hit wins. -/
def findCornerHit (t : CoordinateTransformer) (m : RegionManager)
    (x y : ℚ) : List (String × RegionData) → Option (String × String)
  | [] => none
  | (label, _) :: rest =>
    match check_corner_proximity t m x y label with
    | some corner => some (label, corner)
    | none => findCornerHit t m x y rest

/-- The second loop of `handle_mouse_press`: the first region whose
canvas-space box contains the press point wins. -/
def findContainHit (t : CoordinateTransformer) (x y : ℚ) :
    List (String × RegionData) → Option String
  | [] => none
  | (label, data) :: rest =>
    let c0 := t.pdf_to_canvas_coords data.coords.1 data.coords.2.1
    let c1 := t.pdf_to_canvas_coords data.coords.2.2.1 data.coords.2.2.2
    if c0.1 ≤ x ∧ x ≤ c1.1 ∧ c0.2 ≤ y ∧ y ≤ c1.2 then some label
    else findContainHit t x y rest

/-- Embeds `ResizeTool.handle_mouse_press`: corner test over every region first,
then containment, else nothing. -/
def handle_mouse_press (t : CoordinateTransformer) (m : RegionManager)
    (st : ResizeToolState) (x y : ℚ) : ResizeToolState :=
  match findCornerHit t m x y m.regions with
  | some (label, corner) => (start_resize m st label corner x y).2
  | none =>
    match findContainHit t x y m.regions with
    | some label => (start_move t m st label x y).2
    | none => st

/-- Embeds `ResizeTool.update_resize`.  The `none` result models the uncaught
`TypeError` from unpacking `self.original_coords` when it is `None` while
`is_resizing` is set (impossible in states produced by `start_resize`). -/
def update_resize (t : CoordinateTransformer) (m : RegionManager)
    (st : ResizeToolState) (canvas_x canvas_y : ℚ) :
    Option (Bool × RegionManager) :=
  if !st.is_resizing || pyFalsyStr st.resize_region then some (false, m)
  else
    match st.original_coords, st.resize_region with
    | some (ox0, oy0, ox1, oy1), some label =>
      let (px, py) := t.canvas_to_pdf_coords canvas_x canvas_y
      if st.resize_corner = some "top-left" then
        some (m.update_region_coords label px py ox1 oy1)
      else if st.resize_corner = some "top-right" then
        some (m.update_region_coords label ox0 py px oy1)
      else if st.resize_corner = some "bottom-left" then
        some (m.update_region_coords label px oy0 ox1 py)
      else if st.resize_corner = some "bottom-right" then
        some (m.update_region_coords label ox0 oy0 px py)
      else some (false, m)
    | none, _ => none
    | _, none => none

/-- Embeds `ResizeTool.update_move`.  The `none` results model the uncaught
`TypeError` from unpacking `None` state fields while `is_moving` is set
(impossible in states produced by `start_move`). -/
def update_move (t : CoordinateTransformer) (m : RegionManager)
    (st : ResizeToolState) (canvas_x canvas_y : ℚ) :
    Option (Bool × RegionManager) :=
  if !st.is_moving || pyFalsyStr st.move_region then some (false, m)
  else
    match st.move_start_coords, st.original_coords_move_canvas, st.move_region with
    | some (prev_x, prev_y), some ((cx0, cy0), (cx1, cy1)), some label =>
      let dx := canvas_x - prev_x
      let dy := canvas_y - prev_y
      let (px0, py0) := t.canvas_to_pdf_coords (cx0 + dx) (cy0 + dy)
      let (px1, py1) := t.canvas_to_pdf_coords (cx1 + dx) (cy1 + dy)
      some (m.update_region_coords label px0 py0 px1 py1)
    | _, _, _ => none

end ResizeTool

/-! ## `main.py` press dispatch and the box selection tool -/

/-- The drawing state of `BoxSelectionTool` (`tools/selection_tools.py`). -/
structure BoxToolState where
  start_pos : Option (ℚ × ℚ)
  is_drawing : Bool
deriving Repr, DecidableEq

/-- Embeds `BoxSelectionTool.handle_mouse_press`: unconditionally records the press
point (in image space) and enters drawing state. -/
def boxtool_handle_mouse_press (t : CoordinateTransformer) (_st : BoxToolState)
    (x y : ℚ) : Bool × BoxToolState :=
  let i := t.canvas_to_image_coords x y
  (true, { start_pos := some i, is_drawing := true })

/-- The tool mode selected in the UI (`self.mode_var`).  The `word` mode's
press path queries the PDF word list and opens a modal dialog; no claim
depends on it, so the embedding covers the `resize` and `box` modes. -/
inductive Mode where
  | resize
  | box
deriving Repr, DecidableEq

/-- The application state touched by `PDFExtractionApp.on_mouse_press`. -/
structure AppPressState where
  mode : Mode
  resizeSt : ResizeToolState
  boxSt : BoxToolState
deriving Repr, DecidableEq

/-- Embeds `PDFExtractionApp.on_mouse_press` (`main.py` lines 229-257): when the
mode is `resize` the press goes to the resize tool only; otherwise it goes
to the active selection tool.  (`SelectionToolManager.set_tool` re-selects
the same tool here and at most cancels an in-progress box drawing, which the
subsequent press overwrites anyway.) -/
def on_mouse_press (t : CoordinateTransformer) (m : RegionManager)
    (app : AppPressState) (x y : ℚ) : AppPressState :=
  match app.mode with
  | .resize =>
    { app with resizeSt := ResizeTool.handle_mouse_press t m app.resizeSt x y }
  | .box =>
    { app with boxSt := (boxtool_handle_mouse_press t app.boxSt x y).2 }

/-! ## Derived definitions used by the verification

Operation sequences over the store, the store invariant, and concrete
stores and tool states used as witnesses. -/

/-- A store operation (the operations listed in the invariant claim, plus
selection, which is the only way `selected_region` becomes set). -/
inductive Op where
  | add (label : String) (x0 y0 x1 y1 : ℚ)
  | rename (old_label new_label : String)
  | updateCoords (label : String) (x0 y0 x1 y1 : ℚ)
  | remove (label : String)
  | move (from_index to_index : Int)
  | clearAll
  | load (input : LoadInput) (filename : String)
  | select (label : String)
  | deselect

/-- Apply one store operation; `none` is an uncaught Python exception. -/
def step (m : RegionManager) : Op → Option RegionManager
  | .add label x0 y0 x1 y1 => some (m.add_region label x0 y0 x1 y1).2
  | .rename o n => (m.update_region_label o n).map Prod.snd
  | .updateCoords label x0 y0 x1 y1 =>
    some (m.update_region_coords label x0 y0 x1 y1).2
  | .remove label => (m.remove_region label).map Prod.snd
  | .move i j => some (m.move_region i j).2
  | .clearAll => some m.clear_all_regions
  | .load input fn => some (m.load_from_file input fn).2
  | .select label => some (m.select_region label).2
  | .deselect => some m.clear_selection

/-- Run a sequence of operations from a fresh store. -/
def runOps (ops : List Op) : Option RegionManager :=
  ops.foldl (fun acc op => acc.bind (fun m => step m op)) (some RegionManager.initial)

/-- Intrinsic validity of a label (validation with no existing labels). -/
def labelOk (l : String) : Prop := (validate_label l []).1 = true

/-- An ordered box: `x0 ≤ x1` and `y0 ≤ y1`. -/
def normalizedCoords (c : ℚ × ℚ × ℚ × ℚ) : Prop :=
  c.1 ≤ c.2.2.1 ∧ c.2.1 ≤ c.2.2.2

/-- The store invariant: `region_order` is a permutation of the region keys,
keys and validator labels are duplicate-free and agree as sets, the
selection (when set) is a key, all labels are intrinsically valid and all
stored boxes are normalized. -/
structure StoreInv (m : RegionManager) : Prop where
  perm : List.Perm m.region_order (regionKeys m)
  keysNodup : (regionKeys m).Nodup
  valNodup : m.validator.region_labels.Nodup
  valEq : ∀ l, l ∈ m.validator.region_labels ↔ l ∈ regionKeys m
  selOk : ∀ l, m.selected_region = some l → l ∈ regionKeys m
  labelsOk : ∀ l ∈ regionKeys m, labelOk l
  coordsOk : ∀ p ∈ m.regions, normalizedCoords p.2.coords

/-- The store a `LoadOutcome` leaves behind (final on success, partial on an
aborted loop). -/
def LoadOutcome.state : LoadOutcome → RegionManager
  | .ok _ m => m
  | .err m => m

/-- A concrete reachable store with two regions, used by witnesses. -/
def exampleStore : RegionManager :=
  ((RegionManager.initial.add_region "A" 0 0 1 1).2.add_region "B" 2 2 3 3).2

/-- A concrete reachable store with three regions in a custom order,
used by witnesses. -/
def exampleStore3 : RegionManager :=
  ((((RegionManager.initial.add_region "A" 0 0 1 1).2.add_region
    "B" 2 2 3 3).2.add_region "C" 4 4 5 5).2.move_region 0 2).2

/-- The store after loading just the well-formed entry `"B"`. -/
def loadedB : RegionManager := (RegionManager.initial.add_region "B" 0 0 1 1).2

/-- A store holding one region `"R"` = (0,0,10,10), used by witnesses. -/
def storeR : RegionManager := (RegionManager.initial.add_region "R" 0 0 10 10).2

/-- The tool state after pressing the bottom-right corner of `"R"`. -/
def stBR : ResizeToolState :=
  (ResizeTool.start_resize storeR ResizeToolState.idle "R" "bottom-right" 10 10).2

/-- Driver for a sequence of drag events during one move interaction: the
tool state captured at press time is fixed, the store evolves.  (The
unreachable exception case leaves the store as is.) -/
def applyMoveDrags (t : CoordinateTransformer) (st : ResizeToolState) :
    RegionManager → List (ℚ × ℚ) → RegionManager
  | m, [] => m
  | m, (x, y) :: rest =>
    match ResizeTool.update_move t m st x y with
    | some r => applyMoveDrags t st r.2 rest
    | none => m

/-- The tool state after pressing inside `"R"` at canvas point (5,5) with
transform zoom 2, scale 1. -/
def stMove : ResizeToolState :=
  (ResizeTool.start_move ⟨2, 1, 0, 0⟩ storeR ResizeToolState.idle "R" 5 5).2

/-- The press point lies within the corner threshold of canvas point
`(a, b)` — §"corner proximity". -/
def nearCorner (x y a b : ℚ) : Prop :=
  |x - a| ≤ RESIZE_CORNER_THRESHOLD ∧ |y - b| ≤ RESIZE_CORNER_THRESHOLD

/-- The press point lies inside the canvas-space box of a region's data —
the containment test of the second `handle_mouse_press` loop. -/
def containsPress (t : CoordinateTransformer) (x y : ℚ) (d : RegionData) : Prop :=
  (t.pdf_to_canvas_coords d.coords.1 d.coords.2.1).1 ≤ x ∧
  x ≤ (t.pdf_to_canvas_coords d.coords.2.2.1 d.coords.2.2.2).1 ∧
  (t.pdf_to_canvas_coords d.coords.1 d.coords.2.1).2 ≤ y ∧
  y ≤ (t.pdf_to_canvas_coords d.coords.2.2.1 d.coords.2.2.2).2

/-- The application press state with both tools idle, in resize mode. -/
def appIdle : AppPressState :=
  ⟨Mode.resize, ResizeToolState.idle, ⟨none, false⟩⟩

/-- A store with one large region `"S"` = (0,0,100,100). -/
def storeBig : RegionManager :=
  (RegionManager.initial.add_region "S" 0 0 100 100).2

/-! ## Dictionary lemmas -/

theorem dictKeys_nil {α : Type} : dictKeys ([] : List (String × α)) = [] := rfl

theorem dictKeys_cons {α : Type} (p : String × α) (d : List (String × α)) :
    dictKeys (p :: d) = p.1 :: dictKeys d := rfl

theorem dictLookup_eq_none_iff {α : Type} (d : List (String × α)) (k : String) :
    dictLookup d k = none ↔ k ∉ dictKeys d := by
  induction d with
  | nil => simp [dictLookup, dictKeys]
  | cons p rest ih =>
    obtain ⟨k', v⟩ := p
    by_cases h : k' = k
    · subst h
      simp [dictLookup, dictKeys_cons]
    · simp [dictLookup, h, dictKeys_cons, ih, Ne.symm h]

theorem dictLookup_isSome_iff {α : Type} (d : List (String × α)) (k : String) :
    (dictLookup d k).isSome = true ↔ k ∈ dictKeys d := by
  rw [Option.isSome_iff_ne_none, not_iff_comm, ← dictLookup_eq_none_iff]

theorem mem_dictKeys_of_lookup {α : Type} {d : List (String × α)} {k : String}
    {v : α} (h : dictLookup d k = some v) : k ∈ dictKeys d := by
  rw [← dictLookup_isSome_iff, h]
  rfl

theorem dictKeys_dictInsert_of_not_mem {α : Type} {d : List (String × α)}
    {k : String} (v : α) (h : k ∉ dictKeys d) :
    dictKeys (dictInsert d k v) = dictKeys d ++ [k] := by
  induction d with
  | nil => simp [dictInsert, dictKeys]
  | cons p rest ih =>
    obtain ⟨k', v'⟩ := p
    rw [dictKeys_cons, List.mem_cons] at h
    push_neg at h
    simp only [dictInsert, if_neg (Ne.symm h.1)]
    rw [dictKeys_cons, dictKeys_cons, ih h.2, List.cons_append]

theorem dictKeys_dictInsert_of_mem {α : Type} {d : List (String × α)}
    {k : String} (v : α) (h : k ∈ dictKeys d) :
    dictKeys (dictInsert d k v) = dictKeys d := by
  induction d with
  | nil => simp [dictKeys] at h
  | cons p rest ih =>
    obtain ⟨k', v'⟩ := p
    by_cases hk : k' = k
    · subst hk
      simp [dictInsert, dictKeys_cons]
    · rw [dictKeys_cons, List.mem_cons] at h
      rcases h with h | h
      · exact absurd h.symm hk
      · simp only [dictInsert, if_neg hk]
        rw [dictKeys_cons, dictKeys_cons, ih h]

theorem dictLookup_dictInsert {α : Type} (d : List (String × α)) (k k' : String)
    (v : α) :
    dictLookup (dictInsert d k v) k' = if k = k' then some v else dictLookup d k' := by
  induction d with
  | nil => simp [dictInsert, dictLookup]
  | cons p rest ih =>
    obtain ⟨k0, v0⟩ := p
    by_cases h0 : k0 = k
    · subst h0
      by_cases h1 : k0 = k'
      · subst h1
        simp [dictInsert, dictLookup]
      · simp [dictInsert, dictLookup, h1]
    · by_cases h1 : k0 = k'
      · subst h1
        simp only [dictInsert, if_neg h0, dictLookup, if_pos rfl]
        rw [if_neg (fun hh : k = k0 => h0 hh.symm)]
        simp
      · simp [dictInsert, h0, dictLookup, h1, ih]

theorem dictKeys_dictPop {α : Type} (d : List (String × α)) (k : String) :
    dictKeys (dictPop d k) = (dictKeys d).erase k := by
  induction d with
  | nil => simp [dictPop, dictKeys]
  | cons p rest ih =>
    obtain ⟨k', v'⟩ := p
    by_cases h : k' = k
    · subst h
      simp [dictPop, dictKeys_cons, List.erase_cons_head]
    · simp only [dictPop, if_neg h, dictKeys_cons]
      rw [List.erase_cons_tail, ih]
      simp [h]

theorem dictLookup_dictPop {α : Type} (d : List (String × α)) (k k' : String)
    (h : k ≠ k') : dictLookup (dictPop d k) k' = dictLookup d k' := by
  induction d with
  | nil => simp [dictPop]
  | cons p rest ih =>
    obtain ⟨k0, v0⟩ := p
    by_cases h0 : k0 = k
    · subst h0
      simp only [dictPop, if_pos rfl, dictLookup]
      simp only [if_true]
      rw [dictLookup.eq_def]
      simp only [if_neg h]
    · simp only [dictPop, if_neg h0, dictLookup]
      by_cases h1 : k0 = k'
      · simp [h1]
      · simp [h1, ih]

/-! ## Small helper lemmas -/

/-- The box returned by `normalize_rect` is always ordered. -/
theorem normalize_rect_ordered (x0 y0 x1 y1 : ℚ) :
    (normalize_rect x0 y0 x1 y1).1 ≤ (normalize_rect x0 y0 x1 y1).2.2.1 ∧
    (normalize_rect x0 y0 x1 y1).2.1 ≤ (normalize_rect x0 y0 x1 y1).2.2.2 :=
  ⟨min_le_max, min_le_max⟩

/-- On an already ordered box, `normalize_rect` is the identity. -/
theorem normalize_rect_of_ordered {x0 y0 x1 y1 : ℚ} (hx : x0 ≤ x1) (hy : y0 ≤ y1) :
    normalize_rect x0 y0 x1 y1 = (x0, y0, x1, y1) := by
  simp [normalize_rect, min_eq_left hx, min_eq_left hy, max_eq_right hx,
    max_eq_right hy]

/-- Success characterization of `validate_label`. -/
theorem validate_label_true_iff (label : String) (ex : List String) :
    (validate_label label ex).1 = true ↔
      label ≠ "" ∧ stripIsEmpty label ≠ true ∧ ¬(label.length > 100) ∧
        ¬(ex ≠ [] ∧ label ∈ ex) := by
  unfold validate_label
  split_ifs with h1 h2 h3 h4 <;>
    simp_all [List.isEmpty_iff, List.isEmpty_eq_false]

/-- A label that passes validation against any existing set also passes the
intrinsic checks (non-empty, not all whitespace, at most 100 characters). -/
theorem validate_label_intrinsic {label : String} {ex : List String}
    (h : (validate_label label ex).1 = true) : (validate_label label []).1 = true := by
  rw [validate_label_true_iff] at h ⊢
  exact ⟨h.1, h.2.1, h.2.2.1, by simp⟩

/-- A label that passes validation is not among the existing labels. -/
theorem validate_label_not_mem {label : String} {ex : List String}
    (h : (validate_label label ex).1 = true) : label ∉ ex := by
  rw [validate_label_true_iff] at h
  intro hmem
  exact h.2.2.2 ⟨List.ne_nil_of_mem hmem, hmem⟩

/-- Validation against a set not containing the label reduces to the
intrinsic checks. -/
theorem validate_label_of_not_mem {label : String} {ex : List String}
    (hi : (validate_label label []).1 = true) (hm : label ∉ ex) :
    (validate_label label ex).1 = true := by
  rw [validate_label_true_iff] at hi ⊢
  exact ⟨hi.1, hi.2.1, hi.2.2.1, fun hc => hm hc.2⟩

/-- First-occurrence index: the element found by `indexOf?` really is at
that position. -/
theorem indexOf?_some_getElem {a : String} :
    ∀ {l : List String} {i : Nat}, l.indexOf? a = some i → l[i]? = some a := by
  intro l
  induction l with
  | nil => intro i h; simp at h
  | cons x xs ih =>
    intro i h
    rw [List.indexOf?_cons] at h
    by_cases hx : (x == a) = true
    · rw [if_pos hx] at h
      obtain rfl : (0 : Nat) = i := by simpa using h
      have : x = a := by simpa using hx
      simp [this]
    · rw [if_neg hx] at h
      obtain ⟨j, hj, hji⟩ := Option.map_eq_some'.mp h
      rw [← hji]
      simpa using ih hj

/-- A member always has an index. -/
theorem indexOf?_ne_none {a : String} {l : List String} (h : a ∈ l) :
    l.indexOf? a ≠ none := by
  intro hn
  rw [List.indexOf?_eq_none_iff] at hn
  exact absurd (by simp : (a == a) = true) (hn a h)

/-- Overwriting the element at a position of `a` is, up to permutation,
removing one `a` and adding the new element in front. -/
theorem set_perm_cons_erase {b : String} :
    ∀ {l : List String} {i : Nat} {a : String}, l[i]? = some a →
      List.Perm (l.set i b) (b :: l.erase a) := by
  intro l
  induction l with
  | nil => intro i a h; simp at h
  | cons c t ih =>
    intro i a h
    match i with
    | 0 =>
      obtain rfl : c = a := by simpa using h
      simp [List.erase_cons_head]
    | Nat.succ j =>
      have hj : t[j]? = some a := by simpa using h
      have hmem : a ∈ t := by
        have := List.getElem?_eq_some.mp hj
        obtain ⟨hlt, hget⟩ := this
        exact hget ▸ List.getElem_mem hlt
      by_cases hca : c = a
      · subst hca
        rw [List.erase_cons_head]
        have step1 : List.Perm (c :: t.set j b) (c :: (b :: t.erase c)) :=
          (ih hj).cons c
        have step2 : List.Perm (c :: (b :: t.erase c)) (b :: (c :: t.erase c)) :=
          List.Perm.swap b c _
        have step3 : List.Perm (c :: t.erase c) t :=
          (List.perm_cons_erase hmem).symm
        exact (step1.trans step2).trans (step3.cons b)
      · rw [List.erase_cons_tail (by simpa using hca)]
        have step1 : List.Perm (c :: t.set j b) (c :: (b :: t.erase a)) :=
          (ih hj).cons c
        exact step1.trans (List.Perm.swap b c _)

/-- Removing the element at a known position is, up to permutation,
removing one occurrence of its value. -/
theorem perm_cons_eraseIdx :
    ∀ {l : List String} {i : Nat} {a : String}, l[i]? = some a →
      List.Perm l (a :: l.eraseIdx i) := by
  intro l
  induction l with
  | nil => intro i a h; simp at h
  | cons c t ih =>
    intro i a h
    match i with
    | 0 =>
      obtain rfl : c = a := by simpa using h
      simp [List.eraseIdx]
    | Nat.succ j =>
      have hj : t[j]? = some a := by simpa using h
      have step1 : List.Perm (c :: t) (c :: (a :: t.eraseIdx j)) :=
        (ih hj).cons c
      exact step1.trans (List.Perm.swap a c _)

/-- Every entry of `dictInsert d k v` is the new pair or an entry of `d`. -/
theorem mem_dictInsert {α : Type} {d : List (String × α)} {k : String} {v : α}
    {p : String × α} (h : p ∈ dictInsert d k v) : p = (k, v) ∨ p ∈ d := by
  induction d with
  | nil => simpa [dictInsert] using h
  | cons q rest ih =>
    obtain ⟨k0, v0⟩ := q
    by_cases h0 : k0 = k
    · subst h0
      rcases (by simpa [dictInsert] using h : p = (k0, v) ∨ p ∈ rest) with h1 | h1
      · exact Or.inl (by simp [h1])
      · exact Or.inr (List.mem_cons_of_mem _ h1)
    · rcases (by simpa [dictInsert, h0] using h :
        p = (k0, v0) ∨ p ∈ dictInsert rest k v) with h1 | h1
      · exact Or.inr (by simp [h1])
      · rcases ih h1 with h2 | h2
        · exact Or.inl h2
        · exact Or.inr (List.mem_cons_of_mem _ h2)

/-- Every entry of `dictPop d k` is an entry of `d`. -/
theorem mem_dictPop {α : Type} {d : List (String × α)} {k : String}
    {p : String × α} (h : p ∈ dictPop d k) : p ∈ d := by
  induction d with
  | nil => simp [dictPop] at h
  | cons q rest ih =>
    obtain ⟨k0, v0⟩ := q
    by_cases h0 : k0 = k
    · subst h0
      exact List.mem_cons_of_mem _ (by simpa [dictPop] using h)
    · rcases (by simpa [dictPop, h0] using h :
        p = (k0, v0) ∨ p ∈ dictPop rest k) with h1 | h1
      · simp [h1]
      · exact List.mem_cons_of_mem _ (ih h1)

/-- A lookup hit is an entry of the dictionary. -/
theorem lookup_mem {α : Type} {d : List (String × α)} {k : String} {v : α}
    (h : dictLookup d k = some v) : (k, v) ∈ d := by
  induction d with
  | nil => simp [dictLookup] at h
  | cons q rest ih =>
    obtain ⟨k0, v0⟩ := q
    by_cases h0 : k0 = k
    · subst h0
      obtain rfl : v0 = v := by simpa [dictLookup] using h
      simp
    · exact List.mem_cons_of_mem _ (ih (by simpa [dictLookup, h0] using h))

/-! ## The operation machine over the store -/

theorem storeInv_initial : StoreInv RegionManager.initial := by
  constructor <;> simp [RegionManager.initial, regionKeys, dictKeys]

/-! ## Outcome equations for the store operations -/

theorem add_region_fail_eq {m : RegionManager} {label : String} (x0 y0 x1 y1 : ℚ)
    (h : (validate_label label m.validator.region_labels).1 = false) :
    m.add_region label x0 y0 x1 y1 =
      ((false, (validate_label label m.validator.region_labels).2), m) := by
  unfold RegionManager.add_region
  simp [h]

theorem add_region_success_eq {m : RegionManager} {label : String} (x0 y0 x1 y1 : ℚ)
    (hv : (validate_label label m.validator.region_labels).1 = true) :
    m.add_region label x0 y0 x1 y1 =
      ((true, ""),
        { m with
          validator := ⟨m.validator.region_labels ++ [label]⟩
          regions := dictInsert m.regions label ⟨normalize_rect x0 y0 x1 y1⟩
          region_order := m.region_order ++ [label] }) := by
  have hnm : label ∉ m.validator.region_labels := validate_label_not_mem hv
  unfold RegionManager.add_region DuplicateValidator.add_label
  simp [hv, hnm]

/-- The operation `add_region` preserves the store invariant. -/
theorem add_region_inv {m : RegionManager} (label : String) (x0 y0 x1 y1 : ℚ)
    (h : StoreInv m) : StoreInv (m.add_region label x0 y0 x1 y1).2 := by
  by_cases hv : (validate_label label m.validator.region_labels).1 = true
  · rw [add_region_success_eq x0 y0 x1 y1 hv]
    have hnv : label ∉ m.validator.region_labels := validate_label_not_mem hv
    have hnk : label ∉ regionKeys m := fun hk => hnv ((h.valEq label).mpr hk)
    have hkeys :
        dictKeys (dictInsert m.regions label ⟨normalize_rect x0 y0 x1 y1⟩) =
          regionKeys m ++ [label] :=
      dictKeys_dictInsert_of_not_mem _ hnk
    constructor
    · show List.Perm (m.region_order ++ [label]) _
      show List.Perm _ (dictKeys (dictInsert m.regions label _))
      rw [hkeys]
      exact h.perm.append (List.Perm.refl [label])
    · show (dictKeys (dictInsert m.regions label _)).Nodup
      rw [hkeys]
      refine List.Nodup.append h.keysNodup (by simp) ?_
      intro a ha hb
      rw [List.mem_singleton] at hb
      exact hnk (hb ▸ ha)
    · show (m.validator.region_labels ++ [label]).Nodup
      refine List.Nodup.append h.valNodup (by simp) ?_
      intro a ha hb
      rw [List.mem_singleton] at hb
      exact hnv (hb ▸ ha)
    · intro l
      show l ∈ m.validator.region_labels ++ [label] ↔
        l ∈ dictKeys (dictInsert m.regions label _)
      rw [hkeys]
      simp [h.valEq l]
    · intro l hl
      show l ∈ dictKeys (dictInsert m.regions label _)
      rw [hkeys]
      exact List.mem_append_left _ (h.selOk l hl)
    · intro l hl
      rw [show regionKeys
          { m with
            validator := ⟨m.validator.region_labels ++ [label]⟩
            regions := dictInsert m.regions label ⟨normalize_rect x0 y0 x1 y1⟩
            region_order := m.region_order ++ [label] } =
          dictKeys (dictInsert m.regions label ⟨normalize_rect x0 y0 x1 y1⟩) from rfl,
        hkeys] at hl
      rcases List.mem_append.mp hl with hl | hl
      · exact h.labelsOk l hl
      · rw [List.mem_singleton] at hl
        exact hl ▸ validate_label_intrinsic hv
    · intro p hp
      rcases mem_dictInsert hp with hp | hp
      · rw [hp]
        exact normalize_rect_ordered x0 y0 x1 y1
      · exact h.coordsOk p hp
  · rw [add_region_fail_eq x0 y0 x1 y1 (by simpa using hv)]
    exact h

theorem remove_region_not_found_eq {m : RegionManager} {label : String}
    (h : dictLookup m.regions label = none) :
    m.remove_region label = some (false, m) := by
  unfold RegionManager.remove_region
  simp [h]

theorem remove_region_success_eq {m : RegionManager} {label : String} {d : RegionData}
    (hl : dictLookup m.regions label = some d) (ho : label ∈ m.region_order) :
    m.remove_region label =
      some (true,
        { regions := dictPop m.regions label
          region_order := m.region_order.erase label
          validator := (m.validator.remove_label label).2
          selected_region :=
            if m.selected_region = some label then none
            else m.selected_region }) := by
  unfold RegionManager.remove_region
  simp [hl, ho]

/-- The operation `remove_region` never raises from an invariant-satisfying
store and preserves the invariant. -/
theorem remove_region_inv {m : RegionManager} (label : String) (h : StoreInv m) :
    ∃ r, m.remove_region label = some r ∧ StoreInv r.2 := by
  cases hl : dictLookup m.regions label with
  | none => exact ⟨(false, m), remove_region_not_found_eq hl, h⟩
  | some d =>
    have hk : label ∈ regionKeys m := mem_dictKeys_of_lookup hl
    have ho : label ∈ m.region_order := h.perm.mem_iff.mpr hk
    refine ⟨_, remove_region_success_eq hl ho, ?_⟩
    have hkeys : dictKeys (dictPop m.regions label) = (regionKeys m).erase label :=
      dictKeys_dictPop _ _
    have hvm : label ∈ m.validator.region_labels := (h.valEq label).mpr hk
    have hval : (m.validator.remove_label label).2 =
        ⟨m.validator.region_labels.erase label⟩ := by
      unfold DuplicateValidator.remove_label
      simp [hvm]
    constructor
    · show List.Perm (m.region_order.erase label)
        (dictKeys (dictPop m.regions label))
      rw [hkeys]
      exact h.perm.erase label
    · show (dictKeys (dictPop m.regions label)).Nodup
      rw [hkeys]
      exact h.keysNodup.erase label
    · rw [hval]
      exact h.valNodup.erase label
    · intro l
      rw [hval]
      show l ∈ m.validator.region_labels.erase label ↔
        l ∈ dictKeys (dictPop m.regions label)
      rw [hkeys, h.valNodup.mem_erase_iff, h.keysNodup.mem_erase_iff]
      simp [h.valEq l]
    · intro l hl2
      show l ∈ dictKeys (dictPop m.regions label)
      rw [hkeys, h.keysNodup.mem_erase_iff]
      by_cases hs : m.selected_region = some label
      · rw [show ((if m.selected_region = some label then none
            else m.selected_region) : Option String) = none from if_pos hs] at hl2
        exact absurd hl2 (by simp)
      · rw [show ((if m.selected_region = some label then none
            else m.selected_region) : Option String) = m.selected_region
            from if_neg hs] at hl2
        refine ⟨?_, h.selOk l hl2⟩
        intro hle
        exact hs (hle ▸ hl2)
    · intro l hl2
      show labelOk l
      have : l ∈ (regionKeys m).erase label := by
        rw [← hkeys]
        exact hl2
      exact h.labelsOk l (List.mem_of_mem_erase this)
    · intro p hp
      exact h.coordsOk p (mem_dictPop hp)

theorem update_region_coords_not_found_eq {m : RegionManager} {label : String}
    (x0 y0 x1 y1 : ℚ) (h : dictLookup m.regions label = none) :
    m.update_region_coords label x0 y0 x1 y1 = (false, m) := by
  unfold RegionManager.update_region_coords
  simp [h]

theorem update_region_coords_success_eq {m : RegionManager} {label : String}
    {d : RegionData} (x0 y0 x1 y1 : ℚ) (h : dictLookup m.regions label = some d) :
    m.update_region_coords label x0 y0 x1 y1 =
      (true, { m with
        regions := dictInsert m.regions label ⟨normalize_rect x0 y0 x1 y1⟩ }) := by
  unfold RegionManager.update_region_coords
  simp [h]

/-- The operation `update_region_coords` preserves the invariant. -/
theorem update_region_coords_inv {m : RegionManager} (label : String)
    (x0 y0 x1 y1 : ℚ) (h : StoreInv m) :
    StoreInv (m.update_region_coords label x0 y0 x1 y1).2 := by
  cases hl : dictLookup m.regions label with
  | none =>
    rw [update_region_coords_not_found_eq x0 y0 x1 y1 hl]
    exact h
  | some d =>
    rw [update_region_coords_success_eq x0 y0 x1 y1 hl]
    have hk : label ∈ regionKeys m := mem_dictKeys_of_lookup hl
    have hkeys :
        dictKeys (dictInsert m.regions label ⟨normalize_rect x0 y0 x1 y1⟩) =
          regionKeys m := dictKeys_dictInsert_of_mem _ hk
    constructor
    · show List.Perm m.region_order (dictKeys (dictInsert m.regions label _))
      rw [hkeys]
      exact h.perm
    · show (dictKeys (dictInsert m.regions label _)).Nodup
      rw [hkeys]
      exact h.keysNodup
    · exact h.valNodup
    · intro l
      show _ ↔ l ∈ dictKeys (dictInsert m.regions label _)
      rw [hkeys]
      exact h.valEq l
    · intro l hl2
      show l ∈ dictKeys (dictInsert m.regions label _)
      rw [hkeys]
      exact h.selOk l hl2
    · intro l hl2
      have : l ∈ regionKeys m := by
        rw [← hkeys]
        exact hl2
      exact h.labelsOk l this
    · intro p hp
      rcases mem_dictInsert hp with hp | hp
      · rw [hp]
        exact normalize_rect_ordered x0 y0 x1 y1
      · exact h.coordsOk p hp

/-- The operation `select_region` preserves the invariant. -/
theorem select_region_inv {m : RegionManager} (label : String) (h : StoreInv m) :
    StoreInv (m.select_region label).2 := by
  unfold RegionManager.select_region
  cases hl : dictLookup m.regions label with
  | none => exact h
  | some d =>
    have hk : label ∈ regionKeys m := mem_dictKeys_of_lookup hl
    exact { h with
      selOk := by
        intro l hl2
        simp only at hl2
        rw [show (some label : Option String) = some l ↔ label = l by simp] at hl2
        exact hl2 ▸ hk }

/-- The operation `clear_selection` preserves the invariant. -/
theorem clear_selection_inv {m : RegionManager} (h : StoreInv m) :
    StoreInv m.clear_selection :=
  { h with selOk := by intro l hl2; simp [RegionManager.clear_selection] at hl2 }

/-- The operation `move_region` preserves the invariant. -/
theorem move_region_inv {m : RegionManager} (i j : Int) (h : StoreInv m) :
    StoreInv (m.move_region i j).2 := by
  unfold RegionManager.move_region
  by_cases hb : 0 ≤ i ∧ i < (m.region_order.length : Int) ∧
      0 ≤ j ∧ j < (m.region_order.length : Int)
  · simp only [if_pos hb]
    obtain ⟨hi0, hilt, hj0, hjlt⟩ := hb
    have hilen : i.toNat < m.region_order.length := by omega
    have hjlen : j.toNat < m.region_order.length := by omega
    have hget : m.region_order[i.toNat]? =
        some (m.region_order.getD i.toNat "") := by
      rw [List.getD_eq_getElem?_getD]
      rw [List.getElem?_eq_getElem hilen]
      rfl
    have hperm1 : List.Perm m.region_order
        (m.region_order.getD i.toNat "" :: m.region_order.eraseIdx i.toNat) :=
      perm_cons_eraseIdx hget
    have hlen2 : j.toNat ≤ (m.region_order.eraseIdx i.toNat).length := by
      have := List.length_eraseIdx_add_one hilen
      omega
    have hperm2 : List.Perm
        ((m.region_order.eraseIdx i.toNat).insertIdx j.toNat
          (m.region_order.getD i.toNat ""))
        (m.region_order.getD i.toNat "" :: m.region_order.eraseIdx i.toNat) :=
      List.perm_insertIdx _ _ hlen2
    have horder : List.Perm
        ((m.region_order.eraseIdx i.toNat).insertIdx j.toNat
          (m.region_order.getD i.toNat ""))
        m.region_order := hperm2.trans hperm1.symm
    exact { h with
      perm := horder.trans h.perm }
  · simp only [if_neg hb]
    exact h

theorem update_region_label_not_found_eq {m : RegionManager} {old_label : String}
    (new_label : String) (h : dictLookup m.regions old_label = none) :
    m.update_region_label old_label new_label =
      some ((false, "Region not found"), m) := by
  unfold RegionManager.update_region_label
  simp [h]

theorem update_region_label_invalid_eq {m : RegionManager} {old_label new_label : String}
    {d : RegionData} (hl : dictLookup m.regions old_label = some d)
    (hv : (validate_label new_label
      (m.validator.region_labels.filter (· ≠ old_label))).1 = false) :
    m.update_region_label old_label new_label =
      some ((false, (validate_label new_label
        (m.validator.region_labels.filter (· ≠ old_label))).2), m) := by
  simp only [ne_eq, decide_not] at hv ⊢
  unfold RegionManager.update_region_label
  simp [hl, hv]

theorem update_region_label_success_eq {m : RegionManager}
    {old_label new_label : String} {d : RegionData} {idx : Nat}
    (hl : dictLookup m.regions old_label = some d)
    (hv : (validate_label new_label
      (m.validator.region_labels.filter (· ≠ old_label))).1 = true)
    (hidx : m.region_order.indexOf? old_label = some idx)
    (hnodup : m.validator.region_labels.Nodup)
    (hold : old_label ∈ m.validator.region_labels) :
    m.update_region_label old_label new_label =
      some ((true, ""),
        { regions := dictInsert (dictPop m.regions old_label) new_label d
          region_order := m.region_order.set idx new_label
          validator := ⟨m.validator.region_labels.erase old_label ++ [new_label]⟩
          selected_region :=
            if m.selected_region = some old_label then some new_label
            else m.selected_region }) := by
  have hnf : new_label ∉ m.validator.region_labels.filter (· ≠ old_label) :=
    validate_label_not_mem hv
  have hguard : ¬(new_label ∈ m.validator.region_labels ∧ new_label ≠ old_label) := by
    intro hc
    exact hnf (List.mem_filter.mpr ⟨hc.1, by simpa using hc.2⟩)
  have hne : new_label ∉ m.validator.region_labels.erase old_label := by
    intro hc
    rw [hnodup.mem_erase_iff] at hc
    exact hguard ⟨hc.2, hc.1⟩
  simp only [ne_eq, decide_not] at hv
  unfold RegionManager.update_region_label DuplicateValidator.update_label
  simp [hl, hv, hguard, hold, hne, hidx]

/-- The operation `update_region_label` never raises from an
invariant-satisfying store and preserves the invariant. -/
theorem update_region_label_inv {m : RegionManager} (old_label new_label : String)
    (h : StoreInv m) :
    ∃ r, m.update_region_label old_label new_label = some r ∧ StoreInv r.2 := by
  cases hl : dictLookup m.regions old_label with
  | none => exact ⟨_, update_region_label_not_found_eq new_label hl, h⟩
  | some d =>
    by_cases hv : (validate_label new_label
        (m.validator.region_labels.filter (· ≠ old_label))).1 = true
    · have hk : old_label ∈ regionKeys m := mem_dictKeys_of_lookup hl
      have ho : old_label ∈ m.region_order := h.perm.mem_iff.mpr hk
      have hvm : old_label ∈ m.validator.region_labels := (h.valEq old_label).mpr hk
      obtain ⟨idx, hidx⟩ : ∃ idx, m.region_order.indexOf? old_label = some idx := by
        cases hio : m.region_order.indexOf? old_label with
        | none => exact absurd hio (indexOf?_ne_none ho)
        | some idx => exact ⟨idx, rfl⟩
      refine ⟨_, update_region_label_success_eq hl hv hidx h.valNodup hvm, ?_⟩
      have hnf : new_label ∉ m.validator.region_labels.filter (· ≠ old_label) :=
        validate_label_not_mem hv
      have hnke : new_label ∉ (regionKeys m).erase old_label := by
        intro hc
        rw [h.keysNodup.mem_erase_iff] at hc
        exact hnf (List.mem_filter.mpr
          ⟨(h.valEq new_label).mpr hc.2, by simpa using hc.1⟩)
      have hnve : new_label ∉ m.validator.region_labels.erase old_label := by
        intro hc
        rw [h.valNodup.mem_erase_iff] at hc
        exact hnf (List.mem_filter.mpr ⟨hc.2, by simpa using hc.1⟩)
      have hkeys : dictKeys (dictInsert (dictPop m.regions old_label) new_label d) =
          (regionKeys m).erase old_label ++ [new_label] := by
        rw [dictKeys_dictInsert_of_not_mem _ (by rw [dictKeys_dictPop]; exact hnke),
          dictKeys_dictPop]
        rfl
      have hgetidx : m.region_order[idx]? = some old_label :=
        indexOf?_some_getElem hidx
      constructor
      · show List.Perm (m.region_order.set idx new_label)
          (dictKeys (dictInsert (dictPop m.regions old_label) new_label d))
        rw [hkeys]
        have p1 : List.Perm (m.region_order.set idx new_label)
            (new_label :: m.region_order.erase old_label) :=
          set_perm_cons_erase hgetidx
        have p2 : List.Perm (m.region_order.erase old_label)
            ((regionKeys m).erase old_label) := h.perm.erase old_label
        have p3 : List.Perm ((regionKeys m).erase old_label ++ [new_label])
            (new_label :: (regionKeys m).erase old_label) :=
          List.perm_append_singleton _ _
        exact (p1.trans (p2.cons new_label)).trans p3.symm
      · show (dictKeys (dictInsert (dictPop m.regions old_label) new_label d)).Nodup
        rw [hkeys]
        refine List.Nodup.append (h.keysNodup.erase old_label) (by simp) ?_
        intro a ha hb
        rw [List.mem_singleton] at hb
        exact hnke (hb ▸ ha)
      · show (m.validator.region_labels.erase old_label ++ [new_label]).Nodup
        refine List.Nodup.append (h.valNodup.erase old_label) (by simp) ?_
        intro a ha hb
        rw [List.mem_singleton] at hb
        exact hnve (hb ▸ ha)
      · intro l
        show l ∈ m.validator.region_labels.erase old_label ++ [new_label] ↔
          l ∈ dictKeys (dictInsert (dictPop m.regions old_label) new_label d)
        rw [hkeys]
        simp only [List.mem_append, List.mem_singleton]
        rw [h.valNodup.mem_erase_iff, h.keysNodup.mem_erase_iff]
        simp [h.valEq l]
      · intro l hl2
        show l ∈ dictKeys (dictInsert (dictPop m.regions old_label) new_label d)
        rw [hkeys]
        by_cases hs : m.selected_region = some old_label
        · rw [show ((if m.selected_region = some old_label then some new_label
              else m.selected_region) : Option String) = some new_label
              from if_pos hs] at hl2
          rw [List.mem_append]
          right
          simpa using (by simpa using hl2 : new_label = l).symm
        · rw [show ((if m.selected_region = some old_label then some new_label
              else m.selected_region) : Option String) = m.selected_region
              from if_neg hs] at hl2
          rw [List.mem_append]
          left
          rw [h.keysNodup.mem_erase_iff]
          refine ⟨?_, h.selOk l hl2⟩
          intro hle
          exact hs (hle ▸ hl2)
      · intro l hl2
        show labelOk l
        have : l ∈ (regionKeys m).erase old_label ++ [new_label] := by
          rw [← hkeys]
          exact hl2
        rcases List.mem_append.mp this with h2 | h2
        · exact h.labelsOk l (List.mem_of_mem_erase h2)
        · rw [List.mem_singleton] at h2
          exact h2 ▸ validate_label_intrinsic hv
      · intro p hp
        rcases mem_dictInsert hp with hp | hp
        · rw [hp]
          exact h.coordsOk (old_label, d) (lookup_mem hl)
        · exact h.coordsOk p (mem_dictPop hp)
    · exact ⟨_, update_region_label_invalid_eq hl (by simpa using hv), h⟩

/-- The loading loop preserves the invariant, whether it finishes or
aborts. -/
theorem load_regions_inv (rd : List (String × Option (List ℚ))) :
    ∀ (labels : List String) (m : RegionManager) (count : Nat), StoreInv m →
      StoreInv (RegionManager.load_regions rd labels m count).state := by
  intro labels
  induction labels with
  | nil => intro m count h; exact h
  | cons label rest ih =>
    intro m count h
    rw [RegionManager.load_regions]
    cases hlook : dictLookup rd label with
    | none => exact ih m count h
    | some oc =>
      cases oc with
      | none => exact h
      | some coords =>
        simp only
        split
        · exact ih _ _ (add_region_inv _ _ _ _ _ h)
        · split
          · exact h
          · exact ih _ _ h

/-- The operation `load_from_file` preserves the invariant from any prior
store. -/
theorem load_from_file_inv {m : RegionManager} (input : LoadInput) (fn : String)
    (h : StoreInv m) : StoreInv (m.load_from_file input fn).2 := by
  cases input with
  | missing => exact h
  | malformed => exact h
  | parsed fd =>
    have h1 := load_regions_inv fd.regionsData fd.order RegionManager.initial 0
      storeInv_initial
    unfold RegionManager.load_from_file RegionManager.clear_all_regions
    cases hout : RegionManager.load_regions fd.regionsData fd.order
        RegionManager.initial 0 with
    | ok n m2 =>
      rw [hout, LoadOutcome.state] at h1
      simpa [hout] using h1
    | err m2 =>
      rw [hout, LoadOutcome.state] at h1
      simpa [hout] using h1

/-- Every operation succeeds without an uncaught exception from an
invariant-satisfying store, and its result satisfies the invariant. -/
theorem step_inv {m : RegionManager} (op : Op) (h : StoreInv m) :
    ∃ m2, step m op = some m2 ∧ StoreInv m2 := by
  cases op with
  | add label x0 y0 x1 y1 => exact ⟨_, rfl, add_region_inv label x0 y0 x1 y1 h⟩
  | rename o n =>
    obtain ⟨r, hr, hinv⟩ := update_region_label_inv o n h
    exact ⟨r.2, by simp [step, hr], hinv⟩
  | updateCoords label x0 y0 x1 y1 =>
    exact ⟨_, rfl, update_region_coords_inv label x0 y0 x1 y1 h⟩
  | remove label =>
    obtain ⟨r, hr, hinv⟩ := remove_region_inv label h
    exact ⟨r.2, by simp [step, hr], hinv⟩
  | move i j => exact ⟨_, rfl, move_region_inv i j h⟩
  | clearAll => exact ⟨_, rfl, storeInv_initial⟩
  | load input fn => exact ⟨_, rfl, load_from_file_inv input fn h⟩
  | select label => exact ⟨_, rfl, select_region_inv label h⟩
  | deselect => exact ⟨_, rfl, clear_selection_inv h⟩

/-- Folding the step function from an invariant-satisfying store. -/
theorem foldl_step_inv : ∀ (ops : List Op) (m : RegionManager), StoreInv m →
    ∃ m2, ops.foldl (fun acc op => acc.bind (fun s => step s op)) (some m) =
      some m2 ∧ StoreInv m2 := by
  intro ops
  induction ops with
  | nil => intro m h; exact ⟨m, rfl, h⟩
  | cons op rest ih =>
    intro m h
    obtain ⟨m1, h1, hinv1⟩ := step_inv op h
    rw [List.foldl_cons, Option.some_bind, h1]
    exact ih m1 hinv1

/-- Any operation sequence from a fresh store runs without exception and
lands in an invariant-satisfying store. -/
theorem runOps_inv (ops : List Op) :
    ∃ m, runOps ops = some m ∧ StoreInv m :=
  foldl_step_inv ops RegionManager.initial storeInv_initial

/-! ## Claim theorems -/

/-- C1: after every sequence of store operations (add, rename, coordinate
update, remove, reorder, clear, load, selection changes) starting from an
empty `RegionManager`, the list `region_order` is a permutation of the keys
of the `regions` mapping (in particular it contains no duplicates), and
`selected_region`, whenever set, is a key of `regions`. -/
theorem c1_store_invariant (ops : List Op) :
    ∃ m, runOps ops = some m ∧
      List.Perm m.region_order (regionKeys m) ∧
      m.region_order.Nodup ∧
      ∀ l, m.selected_region = some l → l ∈ regionKeys m := by
  obtain ⟨m, hrun, hinv⟩ := runOps_inv ops
  exact ⟨m, hrun, hinv.perm, (hinv.perm.nodup_iff).mpr hinv.keysNodup, hinv.selOk⟩

/-- C5 counterexample: `canvas_to_pdf_delta` divides by `scale` with no
zero guard, so with `scale = 0` it raises `ZeroDivisionError` (modelled by
`none`) instead of returning a value — contradicting the claim that every
coordinate conversion returns a value and never raises for any zoom/scale
values. -/
theorem c5_delta_raises_counterexample :
    (⟨1, 0, 0, 0⟩ : CoordinateTransformer).canvas_to_pdf_delta 1 1 = none := by
  unfold CoordinateTransformer.canvas_to_pdf_delta
  norm_num

/-- C5 (amended): every *point* conversion returns a value for every
transform, with `image_to_pdf_coords` (and hence `canvas_to_pdf_coords`)
returning the origin as a safe default when `zoom·scale = 0`; the delta
conversion `canvas_to_pdf_delta`, however, returns a value exactly when
`scale ≠ 0` and raises on a zero `scale`. -/
theorem c5_conversions_total_amended (t : CoordinateTransformer) (x y : ℚ) :
    ((t.canvas_to_pdf_delta x y).isSome = true ↔ t.scale ≠ 0) ∧
    (t.zoom * t.scale = 0 → t.image_to_pdf_coords x y = (0, 0)) ∧
    (t.zoom * t.scale = 0 → t.canvas_to_pdf_coords x y = (0, 0)) := by
  refine ⟨?_, ?_, ?_⟩
  · unfold CoordinateTransformer.canvas_to_pdf_delta
    by_cases h : t.scale = 0 <;> simp [h]
  · intro h
    unfold CoordinateTransformer.image_to_pdf_coords
    rw [if_pos h]
  · intro h
    unfold CoordinateTransformer.canvas_to_pdf_coords
      CoordinateTransformer.image_to_pdf_coords
    simp [h]

theorem c5_conversions_total_amended_witness :
    (((⟨0, 0, 3, 4⟩ : CoordinateTransformer).canvas_to_pdf_delta 1 2).isSome = true ↔
      (⟨0, 0, 3, 4⟩ : CoordinateTransformer).scale ≠ 0) ∧
    (⟨0, 0, 3, 4⟩ : CoordinateTransformer).image_to_pdf_coords 1 2 = (0, 0) ∧
    (⟨0, 0, 3, 4⟩ : CoordinateTransformer).canvas_to_pdf_coords 1 2 = (0, 0) := by
  obtain ⟨h1, h2, h3⟩ := c5_conversions_total_amended ⟨0, 0, 3, 4⟩ 1 2
  exact ⟨h1, h2 (by norm_num), h3 (by norm_num)⟩

/-- C7: for every transform with `zoom·scale ≠ 0`, converting a document
point to image space and back is the identity (exact, over exact
arithmetic). -/
theorem c7_roundtrip_image_document (t : CoordinateTransformer) (px py : ℚ)
    (h : t.zoom * t.scale ≠ 0) :
    t.image_to_pdf_coords (t.pdf_to_image_coords px py).1
      (t.pdf_to_image_coords px py).2 = (px, py) := by
  unfold CoordinateTransformer.pdf_to_image_coords
    CoordinateTransformer.image_to_pdf_coords
  rw [if_neg h]
  field_simp

theorem c7_roundtrip_image_document_witness :
    (⟨2, 1, 5, 7⟩ : CoordinateTransformer).zoom *
      (⟨2, 1, 5, 7⟩ : CoordinateTransformer).scale ≠ 0 ∧
    (⟨2, 1, 5, 7⟩ : CoordinateTransformer).image_to_pdf_coords
      ((⟨2, 1, 5, 7⟩ : CoordinateTransformer).pdf_to_image_coords 3 4).1
      ((⟨2, 1, 5, 7⟩ : CoordinateTransformer).pdf_to_image_coords 3 4).2 = (3, 4) :=
  ⟨by norm_num, c7_roundtrip_image_document ⟨2, 1, 5, 7⟩ 3 4 (by norm_num)⟩

/-- The duplicate branch of `validate_label`. -/
theorem validate_label_dup_eq {label : String} {ex : List String}
    (h1 : label ≠ "") (h2 : stripIsEmpty label = false) (h3 : ¬label.length > 100)
    (h4 : label ∈ ex) :
    validate_label label ex = (false, "Label already exists") := by
  have hne : ex ≠ [] := List.ne_nil_of_mem h4
  have hc : (!ex.isEmpty && ex.contains label) = true := by
    rw [Bool.and_eq_true]
    constructor
    · rw [Bool.not_eq_true']
      rw [← Bool.not_eq_true]
      intro hc2
      exact hne (List.isEmpty_iff.mp hc2)
    · exact List.contains_iff_exists_mem_beq.mpr ⟨label, h4, by simp⟩
  unfold validate_label
  rw [if_neg h1, if_neg (by simp [h2]), if_neg h3, if_pos hc]

/-- C2: `add_region` validation and success behaviour: each invalid label
(empty, whitespace-only, over-long, duplicate) produces its specific error
and leaves the store untouched; a valid fresh label succeeds, stores the
min/max-normalized box and appends the label to the end of the order list;
and a second `add_region` with the same label always fails with the
duplicate error, leaving the store exactly as after the first call. -/
theorem c2_add_region_validation (m : RegionManager) (label : String)
    (x0 y0 x1 y1 a b c d : ℚ) :
    (label = "" →
      m.add_region label x0 y0 x1 y1 = ((false, "Label cannot be empty"), m)) ∧
    (label ≠ "" → stripIsEmpty label = true →
      m.add_region label x0 y0 x1 y1 =
        ((false, "Label cannot be only whitespace"), m)) ∧
    (label ≠ "" → stripIsEmpty label = false → label.length > 100 →
      m.add_region label x0 y0 x1 y1 =
        ((false, "Label too long (max 100 characters)"), m)) ∧
    (label ≠ "" → stripIsEmpty label = false → ¬label.length > 100 →
      label ∈ m.validator.region_labels →
      m.add_region label x0 y0 x1 y1 = ((false, "Label already exists"), m)) ∧
    ((validate_label label m.validator.region_labels).1 = true →
      (m.add_region label x0 y0 x1 y1).1 = (true, "") ∧
      dictLookup (m.add_region label x0 y0 x1 y1).2.regions label =
        some ⟨normalize_rect x0 y0 x1 y1⟩ ∧
      (m.add_region label x0 y0 x1 y1).2.region_order =
        m.region_order ++ [label] ∧
      (normalize_rect x0 y0 x1 y1).1 ≤ (normalize_rect x0 y0 x1 y1).2.2.1 ∧
      (normalize_rect x0 y0 x1 y1).2.1 ≤ (normalize_rect x0 y0 x1 y1).2.2.2) ∧
    ((m.add_region label x0 y0 x1 y1).1.1 = true →
      (m.add_region label x0 y0 x1 y1).2.add_region label a b c d =
        ((false, "Label already exists"), (m.add_region label x0 y0 x1 y1).2)) := by
  refine ⟨?_, ?_, ?_, ?_, ?_, ?_⟩
  · intro hlab
    have hv : validate_label label m.validator.region_labels =
        (false, "Label cannot be empty") := by
      unfold validate_label
      rw [if_pos hlab]
    rw [add_region_fail_eq x0 y0 x1 y1 (by rw [hv]), hv]
  · intro hlab hstrip
    have hv : validate_label label m.validator.region_labels =
        (false, "Label cannot be only whitespace") := by
      unfold validate_label
      rw [if_neg hlab, if_pos hstrip]
    rw [add_region_fail_eq x0 y0 x1 y1 (by rw [hv]), hv]
  · intro hlab hstrip hlen
    have hv : validate_label label m.validator.region_labels =
        (false, "Label too long (max 100 characters)") := by
      unfold validate_label
      rw [if_neg hlab, if_neg (by simp [hstrip]), if_pos hlen]
    rw [add_region_fail_eq x0 y0 x1 y1 (by rw [hv]), hv]
  · intro hlab hstrip hlen hmem
    have hv := validate_label_dup_eq hlab hstrip hlen hmem
    rw [add_region_fail_eq x0 y0 x1 y1 (by rw [hv]), hv]
  · intro hv
    rw [add_region_success_eq x0 y0 x1 y1 hv]
    refine ⟨rfl, ?_, rfl, (normalize_rect_ordered x0 y0 x1 y1).1,
      (normalize_rect_ordered x0 y0 x1 y1).2⟩
    show dictLookup (dictInsert m.regions label ⟨normalize_rect x0 y0 x1 y1⟩)
      label = _
    rw [dictLookup_dictInsert]
    simp
  · intro hok
    by_cases hv : (validate_label label m.validator.region_labels).1 = true
    · rw [add_region_success_eq x0 y0 x1 y1 hv]
      obtain ⟨hlab, hstrip, hlen, -⟩ := (validate_label_true_iff _ _).mp hv
      have hmem : label ∈ m.validator.region_labels ++ [label] := by simp
      have hv2 := validate_label_dup_eq hlab (by simpa using hstrip) hlen hmem
      rw [add_region_fail_eq a b c d (by rw [hv2]), hv2]
    · rw [add_region_fail_eq x0 y0 x1 y1 (by simpa using hv)] at hok
      simp at hok

theorem c2_add_region_validation_witness :
    RegionManager.initial.add_region "" 0 0 1 1 =
      ((false, "Label cannot be empty"), RegionManager.initial) ∧
    ((RegionManager.initial.add_region "A" 10 20 3 4).1 = (true, "") ∧
      dictLookup (RegionManager.initial.add_region "A" 10 20 3 4).2.regions "A" =
        some ⟨normalize_rect 10 20 3 4⟩ ∧
      (RegionManager.initial.add_region "A" 10 20 3 4).2.region_order =
        RegionManager.initial.region_order ++ ["A"] ∧
      (normalize_rect 10 20 3 4).1 ≤ (normalize_rect 10 20 3 4).2.2.1 ∧
      (normalize_rect 10 20 3 4).2.1 ≤ (normalize_rect 10 20 3 4).2.2.2) ∧
    (RegionManager.initial.add_region "A" 10 20 3 4).2.add_region "A" 0 0 1 1 =
      ((false, "Label already exists"),
        (RegionManager.initial.add_region "A" 10 20 3 4).2) :=
  ⟨(c2_add_region_validation RegionManager.initial "" 0 0 1 1 0 0 1 1).1 rfl,
   (c2_add_region_validation RegionManager.initial "A" 10 20 3 4 0 0 1 1).2.2.2.2.1
     (by decide),
   (c2_add_region_validation RegionManager.initial "A" 10 20 3 4 0 0 1 1).2.2.2.2.2
     (by decide)⟩

/-- Writing back the value already at a position leaves the list
unchanged. -/
theorem set_self_of_getElem? : ∀ {l : List String} {i : Nat} {a : String},
    l[i]? = some a → l.set i a = l := by
  intro l
  induction l with
  | nil => intro i a h; simp at h
  | cons c t ih =>
    intro i a h
    match i with
    | 0 =>
      obtain rfl : c = a := by simpa using h
      rfl
    | Nat.succ j =>
      have ht := ih (by simpa using h : t[j]? = some a)
      simp [ht]

/-- C6: `update_region_label` validates the new label against all existing
labels except the old one and is atomic: on failure the store is returned
completely unchanged; on success the `regions` key is replaced (the data
moves to the new key), the label keeps its exact position in the order
list, and the selection is migrated when it pointed at the old label.
Renaming a label that collides with a *different* existing label fails with
the duplicate error, and renaming a label to itself always succeeds and is
a no-op on the order list, the coordinates and the selection. -/
theorem c6_rename_atomic (m : RegionManager) (old_label new_label : String)
    (h : StoreInv m) :
    (∃ r, m.update_region_label old_label new_label = some r ∧
      (r.1.1 = false → r.2 = m) ∧
      (r.1.1 = true →
        dictLookup r.2.regions new_label = dictLookup m.regions old_label ∧
        (∃ i, m.region_order[i]? = some old_label ∧
          r.2.region_order = m.region_order.set i new_label) ∧
        r.2.selected_region =
          (if m.selected_region = some old_label then some new_label
           else m.selected_region))) ∧
    (new_label ∈ regionKeys m → new_label ≠ old_label →
      old_label ∈ regionKeys m →
      m.update_region_label old_label new_label =
        some ((false, "Label already exists"), m)) ∧
    (old_label ∈ regionKeys m →
      ∃ r, m.update_region_label old_label old_label = some r ∧
        r.1 = (true, "") ∧
        r.2.region_order = m.region_order ∧
        (∀ l, dictLookup r.2.regions l = dictLookup m.regions l) ∧
        r.2.selected_region = m.selected_region) := by
  refine ⟨?_, ?_, ?_⟩
  · cases hl : dictLookup m.regions old_label with
    | none =>
      refine ⟨_, update_region_label_not_found_eq new_label hl, fun _ => rfl, ?_⟩
      intro hc
      simp at hc
    | some d =>
      by_cases hv : (validate_label new_label
          (m.validator.region_labels.filter (· ≠ old_label))).1 = true
      · have hk : old_label ∈ regionKeys m := mem_dictKeys_of_lookup hl
        have ho : old_label ∈ m.region_order := h.perm.mem_iff.mpr hk
        have hvm : old_label ∈ m.validator.region_labels :=
          (h.valEq old_label).mpr hk
        obtain ⟨idx, hidx⟩ : ∃ idx,
            m.region_order.indexOf? old_label = some idx := by
          cases hio : m.region_order.indexOf? old_label with
          | none => exact absurd hio (indexOf?_ne_none ho)
          | some idx => exact ⟨idx, rfl⟩
        refine ⟨_, update_region_label_success_eq hl hv hidx h.valNodup hvm, ?_, ?_⟩
        · intro hc
          simp at hc
        · intro _
          refine ⟨?_, ⟨idx, indexOf?_some_getElem hidx, rfl⟩, rfl⟩
          show dictLookup (dictInsert (dictPop m.regions old_label) new_label d)
            new_label = some d
          rw [dictLookup_dictInsert]
          simp
      · refine ⟨_, update_region_label_invalid_eq hl (by simpa using hv),
          fun _ => rfl, ?_⟩
        intro hc
        simp at hc
  · intro hnk hne hok
    obtain ⟨d, hl⟩ : ∃ d, dictLookup m.regions old_label = some d := by
      have := (dictLookup_isSome_iff m.regions old_label).mpr hok
      cases hcase : dictLookup m.regions old_label with
      | none => rw [hcase] at this; simp at this
      | some d => exact ⟨d, rfl⟩
    have hok2 : labelOk new_label := h.labelsOk new_label hnk
    obtain ⟨h1, h2, h3, -⟩ := (validate_label_true_iff _ _).mp hok2
    have hmf : new_label ∈ m.validator.region_labels.filter (· ≠ old_label) :=
      List.mem_filter.mpr ⟨(h.valEq new_label).mpr hnk, by simpa using hne⟩
    have hv := validate_label_dup_eq h1 (by simpa using h2) h3 hmf
    rw [update_region_label_invalid_eq hl (by rw [hv]), hv]
  · intro hok
    obtain ⟨d, hl⟩ : ∃ d, dictLookup m.regions old_label = some d := by
      have := (dictLookup_isSome_iff m.regions old_label).mpr hok
      cases hcase : dictLookup m.regions old_label with
      | none => rw [hcase] at this; simp at this
      | some d => exact ⟨d, rfl⟩
    have ho : old_label ∈ m.region_order := h.perm.mem_iff.mpr hok
    have hvm : old_label ∈ m.validator.region_labels := (h.valEq old_label).mpr hok
    have hnotf : old_label ∉ m.validator.region_labels.filter (· ≠ old_label) := by
      intro hc
      simpa using (List.mem_filter.mp hc).2
    have hv : (validate_label old_label
        (m.validator.region_labels.filter (· ≠ old_label))).1 = true :=
      validate_label_of_not_mem (h.labelsOk old_label hok) hnotf
    obtain ⟨idx, hidx⟩ : ∃ idx, m.region_order.indexOf? old_label = some idx := by
      cases hio : m.region_order.indexOf? old_label with
      | none => exact absurd hio (indexOf?_ne_none ho)
      | some idx => exact ⟨idx, rfl⟩
    refine ⟨_, update_region_label_success_eq hl hv hidx h.valNodup hvm,
      rfl, ?_, ?_, ?_⟩
    · show m.region_order.set idx old_label = m.region_order
      exact set_self_of_getElem? (indexOf?_some_getElem hidx)
    · intro l
      show dictLookup (dictInsert (dictPop m.regions old_label) old_label d) l =
        dictLookup m.regions l
      rw [dictLookup_dictInsert]
      by_cases hlo : old_label = l
      · rw [if_pos hlo, ← hlo, hl]
      · rw [if_neg hlo, dictLookup_dictPop _ _ _ hlo]
    · show (if m.selected_region = some old_label then some old_label
        else m.selected_region) = m.selected_region
      by_cases hs : m.selected_region = some old_label
      · rw [if_pos hs, hs]
      · rw [if_neg hs]

theorem exampleStore_inv : StoreInv exampleStore :=
  add_region_inv "B" 2 2 3 3 (add_region_inv "A" 0 0 1 1 storeInv_initial)

theorem c6_rename_atomic_witness :
    exampleStore.update_region_label "A" "B" =
      some ((false, "Label already exists"), exampleStore) ∧
    (exampleStore.update_region_label "A" "A").map Prod.fst =
      some (true, "") ∧
    (exampleStore.update_region_label "A" "A").map
      (fun r => r.2.region_order) = some exampleStore.region_order ∧
    (exampleStore.update_region_label "A" "A").map
      (fun r => dictLookup r.2.regions "A") =
      some (dictLookup exampleStore.regions "A") ∧
    (exampleStore.update_region_label "A" "A").map
      (fun r => r.2.selected_region) = some exampleStore.selected_region := by
  have h := c6_rename_atomic exampleStore "A" "B" exampleStore_inv
  have h2 := c6_rename_atomic exampleStore "A" "A" exampleStore_inv
  obtain ⟨r, hr, ha, hb, hc, hd⟩ := h2.2.2 (by decide)
  refine ⟨h.2.1 (by decide) (by decide) (by decide), ?_, ?_, ?_, ?_⟩
  · rw [hr, Option.map_some']
    rw [ha]
  · rw [hr, Option.map_some']
    rw [hb]
  · rw [hr, Option.map_some']
    rw [hc "A"]
  · rw [hr, Option.map_some']
    rw [hd]

/-- Lookup in the serialized `regions` dictionary. -/
theorem dictLookup_save (d : List (String × RegionData)) (k : String) :
    dictLookup (d.map (fun p => (p.1,
      some [p.2.coords.1, p.2.coords.2.1, p.2.coords.2.2.1, p.2.coords.2.2.2]))) k =
    (dictLookup d k).map (fun v =>
      some [v.coords.1, v.coords.2.1, v.coords.2.2.1, v.coords.2.2.2]) := by
  induction d with
  | nil => rfl
  | cons p rest ih =>
    obtain ⟨k0, v0⟩ := p
    by_cases h : k0 = k <;> simp [dictLookup, h, ih]

/-- Loading loop over serialized data: every label drawn from the saved
store loads back with its exact coordinates. -/
theorem load_regions_save (m : RegionManager) (hinv : StoreInv m) :
    ∀ (labels : List String) (acc : RegionManager) (count : Nat),
      StoreInv acc →
      (∀ l ∈ labels, l ∈ regionKeys m) →
      (∀ l ∈ labels, l ∉ regionKeys acc) →
      labels.Nodup →
      ∃ n macc,
        RegionManager.load_regions m.save_to_file.regionsData labels acc count =
          .ok n macc ∧
        n = count + labels.length ∧
        macc.region_order = acc.region_order ++ labels ∧
        (∀ l, dictLookup macc.regions l =
          if l ∈ labels then dictLookup m.regions l
          else dictLookup acc.regions l) := by
  intro labels
  induction labels with
  | nil =>
    intro acc count hacc _ _ _
    refine ⟨count, acc, rfl, by simp, by simp, ?_⟩
    intro l
    simp
  | cons label rest ih =>
    intro acc count hacc hsub hdisj hnodup
    have hkm : label ∈ regionKeys m := hsub label (by simp)
    obtain ⟨d, hd⟩ : ∃ d, dictLookup m.regions label = some d := by
      have := (dictLookup_isSome_iff m.regions label).mpr hkm
      cases hcase : dictLookup m.regions label with
      | none => rw [hcase] at this; simp at this
      | some d => exact ⟨d, rfl⟩
    have hrd : dictLookup m.save_to_file.regionsData label =
        some (some [d.coords.1, d.coords.2.1, d.coords.2.2.1, d.coords.2.2.2]) := by
      show dictLookup (m.regions.map (fun p => (p.1,
        some [p.2.coords.1, p.2.coords.2.1, p.2.coords.2.2.1, p.2.coords.2.2.2])))
        label = _
      rw [dictLookup_save, hd]
      rfl
    have hnorm : normalizedCoords d.coords := hinv.coordsOk (label, d) (lookup_mem hd)
    have hok : labelOk label := hinv.labelsOk label hkm
    have hnacc : label ∉ acc.validator.region_labels := by
      intro hc
      exact hdisj label (by simp) ((hacc.valEq label).mp hc)
    have hv : (validate_label label acc.validator.region_labels).1 = true :=
      validate_label_of_not_mem hok hnacc
    have hnre : normalize_rect d.coords.1 d.coords.2.1 d.coords.2.2.1
        d.coords.2.2.2 = d.coords := by
      have := normalize_rect_of_ordered hnorm.1 hnorm.2
      rw [this]
    rw [RegionManager.load_regions, hrd]
    simp only
    rw [add_region_success_eq _ _ _ _ hv]
    simp only
    set acc2 : RegionManager :=
      { acc with
        validator := ⟨acc.validator.region_labels ++ [label]⟩
        regions := dictInsert acc.regions label
          ⟨normalize_rect d.coords.1 d.coords.2.1 d.coords.2.2.1 d.coords.2.2.2⟩
        region_order := acc.region_order ++ [label] } with hacc2
    have hacc2inv : StoreInv acc2 := by
      have := add_region_inv label d.coords.1 d.coords.2.1 d.coords.2.2.1
        d.coords.2.2.2 hacc
      rw [add_region_success_eq _ _ _ _ hv] at this
      exact this
    have hkacc2 : regionKeys acc2 = regionKeys acc ++ [label] := by
      show dictKeys (dictInsert acc.regions label _) = _
      exact dictKeys_dictInsert_of_not_mem _
        (fun hc => hdisj label (by simp) hc)
    obtain ⟨n, macc, hrun, hn, horder, hlook⟩ := ih acc2 (count + 1) hacc2inv
      (fun l hl => hsub l (by simp [hl]))
      (by
        intro l hl hc
        rw [hkacc2] at hc
        rcases List.mem_append.mp hc with hc | hc
        · exact hdisj l (by simp [hl]) hc
        · rw [List.mem_singleton] at hc
          exact (List.nodup_cons.mp hnodup).1 (hc ▸ hl))
      (List.nodup_cons.mp hnodup).2
    refine ⟨n, macc, by simpa using hrun, by simp only [List.length_cons]; omega,
      ?_, ?_⟩
    · rw [horder]
      show acc.region_order ++ [label] ++ rest = _
      rw [List.append_assoc]
      rfl
    · intro l
      rw [hlook l]
      by_cases hlr : l ∈ rest
      · rw [if_pos hlr, if_pos (by simp [hlr])]
      · rw [if_neg hlr]
        by_cases hll : l = label
        · subst hll
          rw [if_pos (by simp)]
          show dictLookup (dictInsert acc.regions l _) l = _
          rw [dictLookup_dictInsert]
          rw [if_pos rfl, hnre, hd]
        · rw [if_neg (by simp [hlr, hll])]
          show dictLookup (dictInsert acc.regions label _) l = _
          rw [dictLookup_dictInsert, if_neg (fun hc => hll hc.symm)]

/-- C3: for every invariant-satisfying (i.e. reachable) store, loading the
file produced by saving it succeeds and reproduces exactly the same order
list and the same coordinates per label (visual handles are not
persisted in `FileData` at all). -/
theorem c3_save_load_roundtrip (m : RegionManager) (fn : String) (h : StoreInv m) :
    (m.load_from_file (.parsed m.save_to_file) fn).1.1 = true ∧
    (m.load_from_file (.parsed m.save_to_file) fn).2.region_order =
      m.region_order ∧
    ∀ l, dictLookup (m.load_from_file (.parsed m.save_to_file) fn).2.regions l =
      dictLookup m.regions l := by
  have hnodup : m.region_order.Nodup := (h.perm.nodup_iff).mpr h.keysNodup
  obtain ⟨n, macc, hrun, hn, horder, hlook⟩ :=
    load_regions_save m h m.region_order RegionManager.initial 0 storeInv_initial
      (fun l hl => h.perm.mem_iff.mp hl)
      (fun l _ hc => by simp [RegionManager.initial, regionKeys, dictKeys] at hc)
      hnodup
  have hrun2 : RegionManager.load_regions m.save_to_file.regionsData
      m.save_to_file.order RegionManager.initial 0 = .ok n macc := hrun
  have hmain : m.load_from_file (.parsed m.save_to_file) fn =
      ((true, "Loaded " ++ toString n ++ " regions from " ++ fn), macc) := by
    show (match RegionManager.load_regions m.save_to_file.regionsData
        m.save_to_file.order m.clear_all_regions 0 with
      | LoadOutcome.ok count m2 =>
        ((true, "Loaded " ++ toString count ++ " regions from " ++ fn), m2)
      | LoadOutcome.err m2 =>
        ((false, "Failed to load: bad region entry"), m2)) = _
    rw [show m.clear_all_regions = RegionManager.initial from rfl, hrun2]
  rw [hmain]
  refine ⟨rfl, ?_, ?_⟩
  · show macc.region_order = m.region_order
    rw [horder]
    simp [RegionManager.initial]
  · intro l
    show dictLookup macc.regions l = dictLookup m.regions l
    rw [hlook l]
    by_cases hl : l ∈ m.region_order
    · rw [if_pos hl]
    · rw [if_neg hl]
      have hnk : l ∉ regionKeys m := fun hc => hl (h.perm.mem_iff.mpr hc)
      rw [(dictLookup_eq_none_iff m.regions l).mpr hnk]
      rfl

theorem exampleStore3_inv : StoreInv exampleStore3 :=
  move_region_inv 0 2 (add_region_inv "C" 4 4 5 5 (add_region_inv "B" 2 2 3 3
    (add_region_inv "A" 0 0 1 1 storeInv_initial)))

theorem c3_save_load_roundtrip_witness :
    (exampleStore3.load_from_file (.parsed exampleStore3.save_to_file)
      "regions.json").1.1 = true ∧
    (exampleStore3.load_from_file (.parsed exampleStore3.save_to_file)
      "regions.json").2.region_order = exampleStore3.region_order ∧
    dictLookup (exampleStore3.load_from_file (.parsed exampleStore3.save_to_file)
      "regions.json").2.regions "A" = dictLookup exampleStore3.regions "A" ∧
    (RegionManager.initial.load_from_file
      (.parsed RegionManager.initial.save_to_file)
      "regions.json").2.region_order = RegionManager.initial.region_order := by
  have h3 := c3_save_load_roundtrip exampleStore3 "regions.json" exampleStore3_inv
  have h0 := c3_save_load_roundtrip RegionManager.initial "regions.json"
    storeInv_initial
  exact ⟨h3.1, h3.2.1, h3.2.2 "A", h0.2.1⟩

/-- A label already tracked by the validator never passes validation. -/
theorem validate_label_false_of_mem {label : String} {ex : List String}
    (h : label ∈ ex) : (validate_label label ex).1 = false := by
  cases hv : (validate_label label ex).1 with
  | false => rfl
  | true =>
    exact absurd ⟨List.ne_nil_of_mem h, h⟩
      ((validate_label_true_iff _ _).mp hv).2.2.2

/-- The loading loop distributes over list append, aborting early on an
exception. -/
theorem load_regions_append (rd : List (String × Option (List ℚ))) :
    ∀ (l1 l2 : List String) (acc : RegionManager) (cnt : Nat),
      RegionManager.load_regions rd (l1 ++ l2) acc cnt =
        match RegionManager.load_regions rd l1 acc cnt with
        | .ok n m2 => RegionManager.load_regions rd l2 m2 n
        | .err m2 => .err m2 := by
  intro l1
  induction l1 with
  | nil => intro l2 acc cnt; rfl
  | cons label rest ih =>
    intro l2 acc cnt
    rw [List.cons_append, RegionManager.load_regions, RegionManager.load_regions]
    cases hl : dictLookup rd label with
    | none => exact ih l2 acc cnt
    | some oc =>
      cases oc with
      | none => rfl
      | some coords =>
        simp only
        split
        · exact ih _ _ _
        · split
          · rfl
          · exact ih _ _ _

/-- C4 counterexample: loading the parsed file
`{"regions": {"A": <record without coords>, "B": {"coords": [0,0,1,1]}},
"order": ["A","B"]}` aborts at the malformed entry `"A"`, so the
well-formed, non-duplicate entry `"B"` is *not* restored — contradicting
the claim that a malformed file yields a partial load in which only the
well-formed, non-duplicate entries are restored. -/
theorem c4_malformed_partial_load_counterexample :
    dictLookup (RegionManager.initial.load_from_file
      (.parsed ⟨[("A", none), ("B", some [0, 0, 1, 1])], ["A", "B"]⟩)
      "regions.json").2.regions "B" = none ∧
    (RegionManager.initial.load_from_file
      (.parsed ⟨[("A", none), ("B", some [0, 0, 1, 1])], ["A", "B"]⟩)
      "regions.json").1.1 = false :=
  ⟨rfl, rfl⟩

/-- C4 (amended): `load_from_file` first clears the store, so the result is
independent of the prior state; each region in the file's order is re-added
through the validated `add_region` path, so a label already loaded (a
duplicate) is silently dropped without affecting the count; when the loop
finishes, the success message reports how many regions were loaded; but a
malformed entry aborts the loop at that entry — the regions loaded *before*
it are kept, those after it (even well-formed ones) are not, and the result
is a failure with a reason instead of a count. -/
theorem c4_load_semantics_amended
    (m acc m2 : RegionManager) (fd : FileData) (fn : String)
    (rd : List (String × Option (List ℚ)))
    (pre post rest : List String) (bad l : String)
    (cnt n : Nat) (a b c d : ℚ) :
    (m.load_from_file (.parsed fd) fn =
      RegionManager.initial.load_from_file (.parsed fd) fn) ∧
    (RegionManager.load_regions rd pre acc cnt = .ok n m2 →
      dictLookup rd bad = some none →
      RegionManager.load_regions rd (pre ++ bad :: post) acc cnt = .err m2) ∧
    (dictLookup rd l = some (some [a, b, c, d]) →
      l ∈ acc.validator.region_labels →
      RegionManager.load_regions rd (l :: rest) acc cnt =
        RegionManager.load_regions rd rest acc cnt) ∧
    (RegionManager.load_regions fd.regionsData fd.order RegionManager.initial 0 =
        .ok n m2 →
      m.load_from_file (.parsed fd) fn =
        ((true, "Loaded " ++ toString n ++ " regions from " ++ fn), m2)) ∧
    (RegionManager.load_regions fd.regionsData fd.order RegionManager.initial 0 =
        .err m2 →
      m.load_from_file (.parsed fd) fn =
        ((false, "Failed to load: bad region entry"), m2)) := by
  refine ⟨rfl, ?_, ?_, ?_, ?_⟩
  · intro hpre hbad
    rw [load_regions_append, hpre]
    show RegionManager.load_regions rd (bad :: post) m2 n = .err m2
    rw [RegionManager.load_regions, hbad]
  · intro hl hmem
    rw [RegionManager.load_regions, hl]
    simp only
    rw [add_region_fail_eq a b c d (validate_label_false_of_mem hmem)]
    simp
  · intro hrun
    show (match RegionManager.load_regions fd.regionsData fd.order
        m.clear_all_regions 0 with
      | LoadOutcome.ok count m2 =>
        ((true, "Loaded " ++ toString count ++ " regions from " ++ fn), m2)
      | LoadOutcome.err m2 =>
        ((false, "Failed to load: bad region entry"), m2)) = _
    rw [show m.clear_all_regions = RegionManager.initial from rfl, hrun]
  · intro hrun
    show (match RegionManager.load_regions fd.regionsData fd.order
        m.clear_all_regions 0 with
      | LoadOutcome.ok count m2 =>
        ((true, "Loaded " ++ toString count ++ " regions from " ++ fn), m2)
      | LoadOutcome.err m2 =>
        ((false, "Failed to load: bad region entry"), m2)) = _
    rw [show m.clear_all_regions = RegionManager.initial from rfl, hrun]

theorem c4_load_semantics_amended_witness :
    RegionManager.load_regions [("A", none), ("B", some [0, 0, 1, 1])]
      (["B"] ++ "A" :: []) RegionManager.initial 0 = .err loadedB ∧
    RegionManager.load_regions [("A", none), ("B", some [0, 0, 1, 1])]
      ("B" :: []) loadedB 1 =
      RegionManager.load_regions [("A", none), ("B", some [0, 0, 1, 1])]
        [] loadedB 1 ∧
    exampleStore.load_from_file
      (.parsed ⟨[("B", some [0, 0, 1, 1])], ["B"]⟩) "regions.json" =
      ((true, "Loaded " ++ toString 1 ++ " regions from regions.json"), loadedB) ∧
    exampleStore.load_from_file
      (.parsed ⟨[("A", none), ("B", some [0, 0, 1, 1])], ["A", "B"]⟩)
      "regions.json" =
      ((false, "Failed to load: bad region entry"), RegionManager.initial) := by
  have h1 := c4_load_semantics_amended exampleStore RegionManager.initial loadedB
    ⟨[("B", some [0, 0, 1, 1])], ["B"]⟩ "regions.json"
    [("A", none), ("B", some [0, 0, 1, 1])] ["B"] [] [] "A" "B" 0 1 0 0 1 1
  have h2 := c4_load_semantics_amended exampleStore loadedB loadedB
    ⟨[("B", some [0, 0, 1, 1])], ["B"]⟩ "regions.json"
    [("A", none), ("B", some [0, 0, 1, 1])] ["B"] [] [] "A" "B" 1 1 0 0 1 1
  have h3 := c4_load_semantics_amended exampleStore RegionManager.initial
    RegionManager.initial
    ⟨[("A", none), ("B", some [0, 0, 1, 1])], ["A", "B"]⟩ "regions.json"
    [("A", none), ("B", some [0, 0, 1, 1])] ["B"] [] [] "A" "B" 0 1 0 0 1 1
  exact ⟨h1.2.1 (by decide) rfl, h2.2.2.1 rfl (by decide),
    h1.2.2.2.1 (by decide), h3.2.2.2.2 (by decide)⟩

/-- C8: during a resize drag the two fixed coordinates of the written box
come from the opposite corner of the coordinates captured at press time,
the two moving coordinates are the pointer position converted to document
space, and the result is min/max-normalized before being stored (so
dragging past the opposite edge flips the rectangle instead of storing an
inverted box). -/
theorem c8_resize_semantics (t : CoordinateTransformer) (m : RegionManager)
    (st : ResizeToolState) (label : String) (x y ox0 oy0 ox1 oy1 : ℚ)
    (d0 : RegionData)
    (hres : st.is_resizing = true) (hreg : st.resize_region = some label)
    (hlab : label ≠ "")
    (horig : st.original_coords = some (ox0, oy0, ox1, oy1))
    (hmem : dictLookup m.regions label = some d0) :
    (st.resize_corner = some "top-left" →
      ResizeTool.update_resize t m st x y = some (true,
        { m with
          regions := dictInsert m.regions label
            ⟨normalize_rect (t.canvas_to_pdf_coords x y).1
              (t.canvas_to_pdf_coords x y).2 ox1 oy1⟩ })) ∧
    (st.resize_corner = some "top-right" →
      ResizeTool.update_resize t m st x y = some (true,
        { m with
          regions := dictInsert m.regions label
            ⟨normalize_rect ox0 (t.canvas_to_pdf_coords x y).2
              (t.canvas_to_pdf_coords x y).1 oy1⟩ })) ∧
    (st.resize_corner = some "bottom-left" →
      ResizeTool.update_resize t m st x y = some (true,
        { m with
          regions := dictInsert m.regions label
            ⟨normalize_rect (t.canvas_to_pdf_coords x y).1 oy0 ox1
              (t.canvas_to_pdf_coords x y).2⟩ })) ∧
    (st.resize_corner = some "bottom-right" →
      ResizeTool.update_resize t m st x y = some (true,
        { m with
          regions := dictInsert m.regions label
            ⟨normalize_rect ox0 oy0 (t.canvas_to_pdf_coords x y).1
              (t.canvas_to_pdf_coords x y).2⟩ })) := by
  have hguard : (!st.is_resizing || pyFalsyStr st.resize_region) = false := by
    rw [hres, hreg]
    simp [pyFalsyStr, hlab]
  refine ⟨?_, ?_, ?_, ?_⟩ <;> intro hc <;>
    (unfold ResizeTool.update_resize
     rw [hguard, horig, hreg, hc]
     simp only [Bool.false_eq_true, if_false]
     simp [update_region_coords_success_eq _ _ _ _ hmem])

theorem c8_resize_semantics_witness :
    ResizeTool.update_resize ⟨1, 1, 0, 0⟩ storeR stBR 15 20 = some (true,
      { storeR with
        regions := dictInsert storeR.regions "R" ⟨(0, 0, 15, 20)⟩ }) ∧
    ResizeTool.update_resize ⟨1, 1, 0, 0⟩ storeR stBR (-5) (-5) = some (true,
      { storeR with
        regions := dictInsert storeR.regions "R" ⟨(-5, -5, 0, 0)⟩ }) := by
  have h1 := (c8_resize_semantics ⟨1, 1, 0, 0⟩ storeR stBR "R" 15 20 0 0 10 10
    ⟨(0, 0, 10, 10)⟩ (by decide) (by decide) (by decide) (by decide)
    (by decide)).2.2.2 (by decide)
  have h2 := (c8_resize_semantics ⟨1, 1, 0, 0⟩ storeR stBR "R" (-5) (-5) 0 0 10 10
    ⟨(0, 0, 10, 10)⟩ (by decide) (by decide) (by decide) (by decide)
    (by decide)).2.2.2 (by decide)
  constructor
  · rw [h1]
    norm_num [CoordinateTransformer.canvas_to_pdf_coords,
      CoordinateTransformer.canvas_to_image_coords,
      CoordinateTransformer.image_to_pdf_coords, normalize_rect]
  · rw [h2]
    norm_num [CoordinateTransformer.canvas_to_pdf_coords,
      CoordinateTransformer.canvas_to_image_coords,
      CoordinateTransformer.image_to_pdf_coords, normalize_rect]

/-- Translating a point through canvas space and back to document space
shifts it by the canvas delta divided by `zoom·scale`. -/
theorem canvas_to_pdf_shift (t : CoordinateTransformer) (hf : t.zoom * t.scale ≠ 0)
    (px py dx dy : ℚ) :
    t.canvas_to_pdf_coords ((t.pdf_to_canvas_coords px py).1 + dx)
      ((t.pdf_to_canvas_coords px py).2 + dy) =
      (px + dx / (t.zoom * t.scale), py + dy / (t.zoom * t.scale)) := by
  unfold CoordinateTransformer.canvas_to_pdf_coords
    CoordinateTransformer.pdf_to_canvas_coords
    CoordinateTransformer.canvas_to_image_coords
    CoordinateTransformer.image_to_canvas_coords
    CoordinateTransformer.pdf_to_image_coords
    CoordinateTransformer.image_to_pdf_coords
  rw [if_neg hf]
  simp only [Prod.mk.injEq]
  constructor <;> (field_simp; ring)

/-- C10 (implicit): moving a region preserves its size exactly.  With the
move state captured at press time (start point, original canvas-space
corners of the original document box) and `zoom·scale ≠ 0`, every
`update_move` writes the original box translated by
`((x-sx)/(zoom·scale), (y-sy)/(zoom·scale))` — the total canvas
displacement since the press divided by the transform factor — so width and
height are unchanged, for any number of intermediate drag events. -/
theorem c10_move_preserves_size (t : CoordinateTransformer)
    (st : ResizeToolState) (label : String) (sx sy ox0 oy0 ox1 oy1 : ℚ)
    (hf : t.zoom * t.scale ≠ 0)
    (hmov : st.is_moving = true) (hreg : st.move_region = some label)
    (hlab : label ≠ "")
    (hstart : st.move_start_coords = some (sx, sy))
    (hcanvas : st.original_coords_move_canvas =
      some (t.pdf_to_canvas_coords ox0 oy0, t.pdf_to_canvas_coords ox1 oy1))
    (hordx : ox0 ≤ ox1) (hordy : oy0 ≤ oy1) :
    (∀ (mc : RegionManager) (x y : ℚ) (dc : RegionData),
      dictLookup mc.regions label = some dc →
      ResizeTool.update_move t mc st x y = some (true,
        { mc with
          regions := dictInsert mc.regions label
            ⟨(ox0 + (x - sx) / (t.zoom * t.scale),
              oy0 + (y - sy) / (t.zoom * t.scale),
              ox1 + (x - sx) / (t.zoom * t.scale),
              oy1 + (y - sy) / (t.zoom * t.scale))⟩ })) ∧
    (∀ x y : ℚ,
      (ox1 + (x - sx) / (t.zoom * t.scale)) -
        (ox0 + (x - sx) / (t.zoom * t.scale)) = ox1 - ox0 ∧
      (oy1 + (y - sy) / (t.zoom * t.scale)) -
        (oy0 + (y - sy) / (t.zoom * t.scale)) = oy1 - oy0) ∧
    (∀ (mc : RegionManager) (pts : List (ℚ × ℚ)) (x y : ℚ) (dc : RegionData),
      dictLookup mc.regions label = some dc →
      dictLookup (applyMoveDrags t st mc (pts ++ [(x, y)])).regions label =
        some ⟨(ox0 + (x - sx) / (t.zoom * t.scale),
               oy0 + (y - sy) / (t.zoom * t.scale),
               ox1 + (x - sx) / (t.zoom * t.scale),
               oy1 + (y - sy) / (t.zoom * t.scale))⟩) := by
  have hguard : (!st.is_moving || pyFalsyStr st.move_region) = false := by
    rw [hmov, hreg]
    simp [pyFalsyStr, hlab]
  have hsingle : ∀ (mc : RegionManager) (x y : ℚ) (dc : RegionData),
      dictLookup mc.regions label = some dc →
      ResizeTool.update_move t mc st x y = some (true,
        { mc with
          regions := dictInsert mc.regions label
            ⟨(ox0 + (x - sx) / (t.zoom * t.scale),
              oy0 + (y - sy) / (t.zoom * t.scale),
              ox1 + (x - sx) / (t.zoom * t.scale),
              oy1 + (y - sy) / (t.zoom * t.scale))⟩ }) := by
    intro mc x y dc hdc
    unfold ResizeTool.update_move
    rw [hguard, hstart, hcanvas, hreg]
    simp only [Bool.false_eq_true, if_false]
    rw [canvas_to_pdf_shift t hf ox0 oy0 (x - sx) (y - sy),
      canvas_to_pdf_shift t hf ox1 oy1 (x - sx) (y - sy)]
    simp only
    rw [update_region_coords_success_eq _ _ _ _ hdc]
    rw [normalize_rect_of_ordered (by linarith) (by linarith)]
  refine ⟨hsingle, ?_, ?_⟩
  · intro x y
    constructor <;> ring
  · intro mc pts
    induction pts generalizing mc with
    | nil =>
      intro x y dc hdc
      rw [List.nil_append]
      show dictLookup (applyMoveDrags t st mc [(x, y)]).regions label = _
      rw [applyMoveDrags, hsingle mc x y dc hdc]
      show dictLookup (applyMoveDrags t st _ []).regions label = _
      rw [applyMoveDrags]
      show dictLookup (dictInsert mc.regions label _) label = _
      rw [dictLookup_dictInsert, if_pos rfl]
    | cons p rest ih =>
      intro x y dc hdc
      obtain ⟨px, py⟩ := p
      rw [List.cons_append]
      show dictLookup (applyMoveDrags t st mc ((px, py) :: (rest ++ [(x, y)]))).regions
        label = _
      rw [applyMoveDrags, hsingle mc px py dc hdc]
      exact ih _ x y
        ⟨(ox0 + (px - sx) / (t.zoom * t.scale),
          oy0 + (py - sy) / (t.zoom * t.scale),
          ox1 + (px - sx) / (t.zoom * t.scale),
          oy1 + (py - sy) / (t.zoom * t.scale))⟩
        (by
          show dictLookup (dictInsert mc.regions label _) label = _
          rw [dictLookup_dictInsert, if_pos rfl])

theorem c10_move_preserves_size_witness :
    dictLookup (applyMoveDrags ⟨2, 1, 0, 0⟩ stMove storeR
      [(7, 9), (11, 25)]).regions "R" = some ⟨(3, 10, 13, 20)⟩ ∧
    (13 : ℚ) - 3 = 10 - 0 ∧ (20 : ℚ) - 10 = 10 - 0 := by
  have h := (c10_move_preserves_size ⟨2, 1, 0, 0⟩ stMove "R" 5 5 0 0 10 10
    (by norm_num) (by decide) (by decide) (by decide) (by decide) rfl
    (by norm_num) (by norm_num)).2.2 storeR [(7, 9)] 11 25 ⟨(0, 0, 10, 10)⟩
    (by decide)
  norm_num at h
  exact ⟨h, by norm_num, by norm_num⟩

/-- A corner hit presupposes a region entry and yields one of the four
corner names. -/
theorem check_corner_some_lookup {t : CoordinateTransformer} {m : RegionManager}
    {x y : ℚ} {l c : String}
    (h : ResizeTool.check_corner_proximity t m x y l = some c) :
    (∃ d, dictLookup m.regions l = some d) ∧ c ∈ RESIZE_CORNERS := by
  unfold ResizeTool.check_corner_proximity at h
  cases hd : dictLookup m.regions l with
  | none => rw [hd] at h; simp at h
  | some d =>
    rw [hd] at h
    refine ⟨⟨d, rfl⟩, ?_⟩
    obtain ⟨p, hp, hpc⟩ := Option.map_eq_some'.mp h
    have hmem := List.mem_of_find?_eq_some hp
    rw [← hpc]
    simp only [RESIZE_CORNERS]
    simp only [List.mem_cons, List.not_mem_nil, or_false] at hmem
    rcases hmem with rfl | rfl | rfl | rfl <;> simp

/-- No-hit characterization of the corner-scan loop. -/
theorem findCornerHit_eq_none_iff (t : CoordinateTransformer) (m : RegionManager)
    (x y : ℚ) (entries : List (String × RegionData)) :
    ResizeTool.findCornerHit t m x y entries = none ↔
      ∀ p ∈ entries, ResizeTool.check_corner_proximity t m x y p.1 = none := by
  induction entries with
  | nil => simp [ResizeTool.findCornerHit]
  | cons p rest ih =>
    obtain ⟨l, d⟩ := p
    cases hc : ResizeTool.check_corner_proximity t m x y l with
    | some c => simp [ResizeTool.findCornerHit, hc]
    | none => simp [ResizeTool.findCornerHit, hc, ih]

/-- First-match characterization of the corner-scan loop. -/
theorem findCornerHit_some_spec (t : CoordinateTransformer) (m : RegionManager)
    (x y : ℚ) :
    ∀ (entries : List (String × RegionData)) (l c : String),
      ResizeTool.findCornerHit t m x y entries = some (l, c) →
      ResizeTool.check_corner_proximity t m x y l = some c ∧
      ∃ pre d post, entries = pre ++ (l, d) :: post ∧
        ∀ p ∈ pre, ResizeTool.check_corner_proximity t m x y p.1 = none := by
  intro entries
  induction entries with
  | nil => intro l c h; simp [ResizeTool.findCornerHit] at h
  | cons p rest ih =>
    intro l c h
    obtain ⟨l0, d0⟩ := p
    cases hc : ResizeTool.check_corner_proximity t m x y l0 with
    | some c0 =>
      rw [ResizeTool.findCornerHit, hc] at h
      obtain ⟨rfl, rfl⟩ : l0 = l ∧ c0 = c := by
        have := Option.some.inj h
        exact ⟨congrArg Prod.fst this, congrArg Prod.snd this⟩
      exact ⟨hc, [], d0, rest, rfl, by simp⟩
    | none =>
      rw [ResizeTool.findCornerHit, hc] at h
      obtain ⟨hcheck, pre, d, post, hdecomp, hpre⟩ := ih l c h
      refine ⟨hcheck, (l0, d0) :: pre, d, post, by rw [hdecomp]; rfl, ?_⟩
      intro p hp
      rcases List.mem_cons.mp hp with rfl | hp
      · exact hc
      · exact hpre p hp

/-- No-hit characterization of the containment loop. -/
theorem findContainHit_eq_none_iff (t : CoordinateTransformer) (x y : ℚ)
    (entries : List (String × RegionData)) :
    ResizeTool.findContainHit t x y entries = none ↔
      ∀ p ∈ entries, ¬containsPress t x y p.2 := by
  induction entries with
  | nil => simp [ResizeTool.findContainHit]
  | cons p rest ih =>
    obtain ⟨l, d⟩ := p
    by_cases hc : containsPress t x y d
    · have hh : ResizeTool.findContainHit t x y ((l, d) :: rest) = some l := by
        rw [ResizeTool.findContainHit]
        exact if_pos hc
      simp [hh, hc]
    · have hstep : ResizeTool.findContainHit t x y ((l, d) :: rest) =
          ResizeTool.findContainHit t x y rest := by
        rw [ResizeTool.findContainHit]
        exact if_neg hc
      simp [hstep, ih, hc]

/-- First-match characterization of the containment loop. -/
theorem findContainHit_some_spec (t : CoordinateTransformer) (x y : ℚ) :
    ∀ (entries : List (String × RegionData)) (l : String),
      ResizeTool.findContainHit t x y entries = some l →
      ∃ pre d post, entries = pre ++ (l, d) :: post ∧
        containsPress t x y d ∧ ∀ p ∈ pre, ¬containsPress t x y p.2 := by
  intro entries
  induction entries with
  | nil => intro l h; simp [ResizeTool.findContainHit] at h
  | cons p rest ih =>
    intro l h
    obtain ⟨l0, d0⟩ := p
    by_cases hc : containsPress t x y d0
    · have hh : ResizeTool.findContainHit t x y ((l0, d0) :: rest) = some l0 := by
        rw [ResizeTool.findContainHit]
        exact if_pos hc
      rw [hh] at h
      obtain rfl : l0 = l := Option.some.inj h
      exact ⟨[], d0, rest, rfl, hc, by simp⟩
    · have hstep : ResizeTool.findContainHit t x y ((l0, d0) :: rest) =
          ResizeTool.findContainHit t x y rest := by
        rw [ResizeTool.findContainHit]
        exact if_neg hc
      rw [hstep] at h
      obtain ⟨pre, d, post, hdecomp, hcd, hpre⟩ := ih l h
      refine ⟨(l0, d0) :: pre, d, post, by rw [hdecomp]; rfl, hcd, ?_⟩
      intro p hp
      rcases List.mem_cons.mp hp with rfl | hp
      · exact hc
      · exact hpre p hp

/-- Corner-order characterization of `check_corner_proximity`: the four
corners are tested in the order top-left, top-right, bottom-left,
bottom-right, and the first within the threshold wins. -/
theorem check_corner_proximity_spec (t : CoordinateTransformer)
    (m : RegionManager) (x y : ℚ) (l : String) (d : RegionData)
    (hd : dictLookup m.regions l = some d) :
    (ResizeTool.check_corner_proximity t m x y l = some "top-left" ↔
      nearCorner x y (t.pdf_to_canvas_coords d.coords.1 d.coords.2.1).1
        (t.pdf_to_canvas_coords d.coords.1 d.coords.2.1).2) ∧
    (ResizeTool.check_corner_proximity t m x y l = some "top-right" ↔
      ¬nearCorner x y (t.pdf_to_canvas_coords d.coords.1 d.coords.2.1).1
        (t.pdf_to_canvas_coords d.coords.1 d.coords.2.1).2 ∧
      nearCorner x y (t.pdf_to_canvas_coords d.coords.2.2.1 d.coords.2.2.2).1
        (t.pdf_to_canvas_coords d.coords.1 d.coords.2.1).2) ∧
    (ResizeTool.check_corner_proximity t m x y l = some "bottom-left" ↔
      ¬nearCorner x y (t.pdf_to_canvas_coords d.coords.1 d.coords.2.1).1
        (t.pdf_to_canvas_coords d.coords.1 d.coords.2.1).2 ∧
      ¬nearCorner x y (t.pdf_to_canvas_coords d.coords.2.2.1 d.coords.2.2.2).1
        (t.pdf_to_canvas_coords d.coords.1 d.coords.2.1).2 ∧
      nearCorner x y (t.pdf_to_canvas_coords d.coords.1 d.coords.2.1).1
        (t.pdf_to_canvas_coords d.coords.2.2.1 d.coords.2.2.2).2) ∧
    (ResizeTool.check_corner_proximity t m x y l = some "bottom-right" ↔
      ¬nearCorner x y (t.pdf_to_canvas_coords d.coords.1 d.coords.2.1).1
        (t.pdf_to_canvas_coords d.coords.1 d.coords.2.1).2 ∧
      ¬nearCorner x y (t.pdf_to_canvas_coords d.coords.2.2.1 d.coords.2.2.2).1
        (t.pdf_to_canvas_coords d.coords.1 d.coords.2.1).2 ∧
      ¬nearCorner x y (t.pdf_to_canvas_coords d.coords.1 d.coords.2.1).1
        (t.pdf_to_canvas_coords d.coords.2.2.1 d.coords.2.2.2).2 ∧
      nearCorner x y (t.pdf_to_canvas_coords d.coords.2.2.1 d.coords.2.2.2).1
        (t.pdf_to_canvas_coords d.coords.2.2.1 d.coords.2.2.2).2) := by
  unfold ResizeTool.check_corner_proximity
  rw [hd]
  by_cases hx0 : |x - (t.pdf_to_canvas_coords d.coords.1 d.coords.2.1).1| ≤
      RESIZE_CORNER_THRESHOLD <;>
  by_cases hx1 : |x - (t.pdf_to_canvas_coords d.coords.2.2.1 d.coords.2.2.2).1| ≤
      RESIZE_CORNER_THRESHOLD <;>
  by_cases hy0 : |y - (t.pdf_to_canvas_coords d.coords.1 d.coords.2.1).2| ≤
      RESIZE_CORNER_THRESHOLD <;>
  by_cases hy1 : |y - (t.pdf_to_canvas_coords d.coords.2.2.1 d.coords.2.2.2).2| ≤
      RESIZE_CORNER_THRESHOLD <;>
    simp [List.find?_cons, nearCorner, hx0, hx1, hy0, hy1]

/-- C9 (amended): in resize mode, press dispatch tests corner proximity for
every region first (region iteration order, corners in the order top-left,
top-right, bottom-left, bottom-right — see
`check_corner_proximity_spec`) and the first match starts a resizing
interaction capturing the original coordinates; only if no corner matched,
containment is tested and the first match starts a moving interaction
capturing the original coordinates in both document and viewport space; if
neither matched, the press is a complete no-op — it is NOT forwarded to the
selection tool. -/
theorem c9_press_dispatch_amended (t : CoordinateTransformer) (m : RegionManager)
    (app : AppPressState) (x y : ℚ) (hmode : app.mode = Mode.resize) :
    (∀ l c, ResizeTool.findCornerHit t m x y m.regions = some (l, c) →
      (ResizeTool.check_corner_proximity t m x y l = some c ∧
        ∃ pre d post, m.regions = pre ++ (l, d) :: post ∧
          ∀ p ∈ pre, ResizeTool.check_corner_proximity t m x y p.1 = none) ∧
      c ∈ RESIZE_CORNERS ∧
      ∃ d0, dictLookup m.regions l = some d0 ∧
        on_mouse_press t m app x y =
          { app with
            resizeSt :=
              { app.resizeSt with
                is_resizing := true
                resize_region := some l
                resize_corner := some c
                start_coords := some (x, y)
                original_coords := some d0.coords } }) ∧
    (ResizeTool.findCornerHit t m x y m.regions = none →
      ∀ l, ResizeTool.findContainHit t x y m.regions = some l →
      (∃ pre d post, m.regions = pre ++ (l, d) :: post ∧
        containsPress t x y d ∧ ∀ p ∈ pre, ¬containsPress t x y p.2) ∧
      ∃ d0, dictLookup m.regions l = some d0 ∧
        on_mouse_press t m app x y =
          { app with
            resizeSt :=
              { app.resizeSt with
                is_moving := true
                move_region := some l
                move_start_coords := some (x, y)
                original_coords_move := some d0.coords
                original_coords_move_pdf := some d0.coords
                original_coords_move_canvas := some
                  (t.pdf_to_canvas_coords d0.coords.1 d0.coords.2.1,
                   t.pdf_to_canvas_coords d0.coords.2.2.1 d0.coords.2.2.2) } }) ∧
    (ResizeTool.findCornerHit t m x y m.regions = none →
      ResizeTool.findContainHit t x y m.regions = none →
      on_mouse_press t m app x y = app) := by
  obtain ⟨mode, rst, bst⟩ := app
  cases hmode
  refine ⟨?_, ?_, ?_⟩
  · intro l c hfind
    obtain ⟨hcheck, pre, d, post, hdecomp, hpre⟩ :=
      findCornerHit_some_spec t m x y m.regions l c hfind
    obtain ⟨⟨d0, hd0⟩, hcmem⟩ := check_corner_some_lookup hcheck
    refine ⟨⟨hcheck, pre, d, post, hdecomp, hpre⟩, hcmem, d0, hd0, ?_⟩
    show { mode := Mode.resize,
           resizeSt := ResizeTool.handle_mouse_press t m rst x y,
           boxSt := bst : AppPressState } = _
    unfold ResizeTool.handle_mouse_press
    rw [hfind]
    unfold ResizeTool.start_resize
    simp [hd0, hcmem]
  · intro hnone l hcont
    obtain ⟨pre, d, post, hdecomp, hcd, hpre⟩ :=
      findContainHit_some_spec t x y m.regions l hcont
    have hmem : l ∈ regionKeys m := by
      show l ∈ dictKeys m.regions
      rw [hdecomp]
      unfold dictKeys
      rw [List.map_append]
      exact List.mem_append_right _ (by simp)
    obtain ⟨d0, hd0⟩ : ∃ d0, dictLookup m.regions l = some d0 := by
      have := (dictLookup_isSome_iff m.regions l).mpr hmem
      cases hcase : dictLookup m.regions l with
      | none => rw [hcase] at this; simp at this
      | some d0 => exact ⟨d0, rfl⟩
    refine ⟨⟨pre, d, post, hdecomp, hcd, hpre⟩, d0, hd0, ?_⟩
    show { mode := Mode.resize,
           resizeSt := ResizeTool.handle_mouse_press t m rst x y,
           boxSt := bst : AppPressState } = _
    unfold ResizeTool.handle_mouse_press
    rw [hnone, hcont]
    unfold ResizeTool.start_move
    simp [hd0]
  · intro hnone hcont
    show { mode := Mode.resize,
           resizeSt := ResizeTool.handle_mouse_press t m rst x y,
           boxSt := bst : AppPressState } = _
    unfold ResizeTool.handle_mouse_press
    rw [hnone, hcont]

/-- The store `storeR` as a literal association list. -/
theorem storeR_regions_eq : storeR.regions = [("R", ⟨(0, 0, 10, 10)⟩)] := by
  decide

/-- A press at (1000,1000) hits no corner of `storeR`'s single region. -/
theorem storeR_far_no_corner :
    ResizeTool.findCornerHit ⟨1, 1, 0, 0⟩ storeR 1000 1000 storeR.regions =
      none := by
  have hd : dictLookup storeR.regions "R" = some ⟨(0, 0, 10, 10)⟩ := by decide
  have hch : ResizeTool.check_corner_proximity ⟨1, 1, 0, 0⟩ storeR 1000 1000 "R" =
      none := by
    cases hc : ResizeTool.check_corner_proximity ⟨1, 1, 0, 0⟩ storeR 1000 1000 "R"
      with
    | none => rfl
    | some c =>
      exfalso
      have hcm := (check_corner_some_lookup hc).2
      have hspec := check_corner_proximity_spec ⟨1, 1, 0, 0⟩ storeR 1000 1000 "R"
        ⟨(0, 0, 10, 10)⟩ hd
      simp only [RESIZE_CORNERS, List.mem_cons, List.not_mem_nil, or_false] at hcm
      rcases hcm with rfl | rfl | rfl | rfl
      · have := hspec.1.mp hc
        norm_num [nearCorner, CoordinateTransformer.pdf_to_canvas_coords,
          CoordinateTransformer.pdf_to_image_coords,
          CoordinateTransformer.image_to_canvas_coords,
          RESIZE_CORNER_THRESHOLD, abs_le] at this
      · have := (hspec.2.1.mp hc).2
        norm_num [nearCorner, CoordinateTransformer.pdf_to_canvas_coords,
          CoordinateTransformer.pdf_to_image_coords,
          CoordinateTransformer.image_to_canvas_coords,
          RESIZE_CORNER_THRESHOLD, abs_le] at this
      · have := (hspec.2.2.1.mp hc).2.2
        norm_num [nearCorner, CoordinateTransformer.pdf_to_canvas_coords,
          CoordinateTransformer.pdf_to_image_coords,
          CoordinateTransformer.image_to_canvas_coords,
          RESIZE_CORNER_THRESHOLD, abs_le] at this
      · have := (hspec.2.2.2.mp hc).2.2.2
        norm_num [nearCorner, CoordinateTransformer.pdf_to_canvas_coords,
          CoordinateTransformer.pdf_to_image_coords,
          CoordinateTransformer.image_to_canvas_coords,
          RESIZE_CORNER_THRESHOLD, abs_le] at this
  rw [findCornerHit_eq_none_iff]
  intro p hp
  rw [storeR_regions_eq] at hp
  simp only [List.mem_singleton] at hp
  rw [hp]
  exact hch

/-- A press at (1000,1000) lies inside no region of `storeR`. -/
theorem storeR_far_no_contain :
    ResizeTool.findContainHit ⟨1, 1, 0, 0⟩ 1000 1000 storeR.regions = none := by
  rw [findContainHit_eq_none_iff]
  intro p hp
  rw [storeR_regions_eq] at hp
  simp only [List.mem_singleton] at hp
  rw [hp]
  intro hcp
  have := hcp.2.1
  norm_num [CoordinateTransformer.pdf_to_canvas_coords,
    CoordinateTransformer.pdf_to_image_coords,
    CoordinateTransformer.image_to_canvas_coords] at this

/-- C9 counterexample: in resize mode, a press that hits no corner and no
region interior (point (1000,1000) against the single region (0,0,10,10))
is a complete no-op — the box selection tool is never invoked, its
`is_drawing` flag stays `false`, even though the box tool's press handler
always sets `is_drawing := true` when it receives a press.  This
contradicts part (c) of the claim, which says such a press is forwarded to
the active selection tool. -/
theorem c9_no_forward_counterexample :
    on_mouse_press ⟨1, 1, 0, 0⟩ storeR appIdle 1000 1000 = appIdle ∧
    (on_mouse_press ⟨1, 1, 0, 0⟩ storeR appIdle 1000 1000).boxSt.is_drawing =
      false ∧
    (boxtool_handle_mouse_press ⟨1, 1, 0, 0⟩ appIdle.boxSt
      1000 1000).2.is_drawing = true := by
  have hmain : on_mouse_press ⟨1, 1, 0, 0⟩ storeR appIdle 1000 1000 = appIdle := by
    show { appIdle with
        resizeSt := ResizeTool.handle_mouse_press ⟨1, 1, 0, 0⟩ storeR
          appIdle.resizeSt 1000 1000 } = appIdle
    unfold ResizeTool.handle_mouse_press
    rw [storeR_far_no_corner, storeR_far_no_contain]
  exact ⟨hmain, by rw [hmain]; rfl, rfl⟩

/-- The store `storeBig` as a literal association list. -/
theorem storeBig_regions_eq :
    storeBig.regions = [("S", ⟨(0, 0, 100, 100)⟩)] := by decide

/-- A press at (50,50) hits no corner of `storeBig`'s single region. -/
theorem storeBig_mid_no_corner :
    ResizeTool.findCornerHit ⟨1, 1, 0, 0⟩ storeBig 50 50 storeBig.regions =
      none := by
  have hd : dictLookup storeBig.regions "S" = some ⟨(0, 0, 100, 100)⟩ := by decide
  have hch : ResizeTool.check_corner_proximity ⟨1, 1, 0, 0⟩ storeBig 50 50 "S" =
      none := by
    cases hc : ResizeTool.check_corner_proximity ⟨1, 1, 0, 0⟩ storeBig 50 50 "S"
      with
    | none => rfl
    | some c =>
      exfalso
      have hcm := (check_corner_some_lookup hc).2
      have hspec := check_corner_proximity_spec ⟨1, 1, 0, 0⟩ storeBig 50 50 "S"
        ⟨(0, 0, 100, 100)⟩ hd
      simp only [RESIZE_CORNERS, List.mem_cons, List.not_mem_nil, or_false] at hcm
      rcases hcm with rfl | rfl | rfl | rfl
      · have := hspec.1.mp hc
        norm_num [nearCorner, CoordinateTransformer.pdf_to_canvas_coords,
          CoordinateTransformer.pdf_to_image_coords,
          CoordinateTransformer.image_to_canvas_coords,
          RESIZE_CORNER_THRESHOLD, abs_le] at this
      · have := (hspec.2.1.mp hc).2
        norm_num [nearCorner, CoordinateTransformer.pdf_to_canvas_coords,
          CoordinateTransformer.pdf_to_image_coords,
          CoordinateTransformer.image_to_canvas_coords,
          RESIZE_CORNER_THRESHOLD, abs_le] at this
      · have := (hspec.2.2.1.mp hc).2.2
        norm_num [nearCorner, CoordinateTransformer.pdf_to_canvas_coords,
          CoordinateTransformer.pdf_to_image_coords,
          CoordinateTransformer.image_to_canvas_coords,
          RESIZE_CORNER_THRESHOLD, abs_le] at this
      · have := (hspec.2.2.2.mp hc).2.2.2
        norm_num [nearCorner, CoordinateTransformer.pdf_to_canvas_coords,
          CoordinateTransformer.pdf_to_image_coords,
          CoordinateTransformer.image_to_canvas_coords,
          RESIZE_CORNER_THRESHOLD, abs_le] at this
  rw [findCornerHit_eq_none_iff]
  intro p hp
  rw [storeBig_regions_eq] at hp
  simp only [List.mem_singleton] at hp
  rw [hp]
  exact hch

theorem c9_press_dispatch_amended_witness :
    on_mouse_press ⟨1, 1, 0, 0⟩ storeR appIdle 0 0 =
      { appIdle with
        resizeSt :=
          { appIdle.resizeSt with
            is_resizing := true
            resize_region := some "R"
            resize_corner := some "top-left"
            start_coords := some (0, 0)
            original_coords := some (0, 0, 10, 10) } } ∧
    on_mouse_press ⟨1, 1, 0, 0⟩ storeBig appIdle 50 50 =
      { appIdle with
        resizeSt :=
          { appIdle.resizeSt with
            is_moving := true
            move_region := some "S"
            move_start_coords := some (50, 50)
            original_coords_move := some (0, 0, 100, 100)
            original_coords_move_pdf := some (0, 0, 100, 100)
            original_coords_move_canvas := some
              (CoordinateTransformer.pdf_to_canvas_coords ⟨1, 1, 0, 0⟩ 0 0,
               CoordinateTransformer.pdf_to_canvas_coords
                 ⟨1, 1, 0, 0⟩ 100 100) } } ∧
    on_mouse_press ⟨1, 1, 0, 0⟩ storeR appIdle 1000 1000 = appIdle := by
  have hdR : dictLookup storeR.regions "R" = some ⟨(0, 0, 10, 10)⟩ := by decide
  have hTL : ResizeTool.check_corner_proximity ⟨1, 1, 0, 0⟩ storeR 0 0 "R" =
      some "top-left" := by
    refine (check_corner_proximity_spec ⟨1, 1, 0, 0⟩ storeR 0 0 "R"
      ⟨(0, 0, 10, 10)⟩ hdR).1.mpr ?_
    norm_num [nearCorner, CoordinateTransformer.pdf_to_canvas_coords,
      CoordinateTransformer.pdf_to_image_coords,
      CoordinateTransformer.image_to_canvas_coords,
      RESIZE_CORNER_THRESHOLD, abs_le]
  have hfind1 : ResizeTool.findCornerHit ⟨1, 1, 0, 0⟩ storeR 0 0 storeR.regions =
      some ("R", "top-left") := by
    rw [storeR_regions_eq, ResizeTool.findCornerHit, hTL]
  obtain ⟨-, -, d0, hd0, hres⟩ :=
    (c9_press_dispatch_amended ⟨1, 1, 0, 0⟩ storeR appIdle 0 0 rfl).1
      "R" "top-left" hfind1
  rw [hdR] at hd0
  obtain rfl : (⟨(0, 0, 10, 10)⟩ : RegionData) = d0 := Option.some.inj hd0
  have hdS : dictLookup storeBig.regions "S" = some ⟨(0, 0, 100, 100)⟩ := by
    decide
  have hcontS : ResizeTool.findContainHit ⟨1, 1, 0, 0⟩ 50 50 storeBig.regions =
      some "S" := by
    rw [storeBig_regions_eq, ResizeTool.findContainHit]
    rw [if_pos ?_]
    norm_num [CoordinateTransformer.pdf_to_canvas_coords,
      CoordinateTransformer.pdf_to_image_coords,
      CoordinateTransformer.image_to_canvas_coords]
  obtain ⟨-, d1, hd1, hmov⟩ :=
    (c9_press_dispatch_amended ⟨1, 1, 0, 0⟩ storeBig appIdle 50 50 rfl).2.1
      storeBig_mid_no_corner "S" hcontS
  rw [hdS] at hd1
  obtain rfl : (⟨(0, 0, 100, 100)⟩ : RegionData) = d1 := Option.some.inj hd1
  have h3 := (c9_press_dispatch_amended ⟨1, 1, 0, 0⟩ storeR appIdle
    1000 1000 rfl).2.2 storeR_far_no_corner storeR_far_no_contain
  exact ⟨hres, hmov, h3⟩
